import Mathlib

/-!
# StructFS: a typed record store with header, CRC-32 and defaults

A shallow embedding of `src/src/StructFS.h` (`StructFS::Storage<T>`).

* A payload of type `T` is its object representation: `sizeof(T)` bytes.
* The storage medium (`fs::FS`, `File`) is an external collaborator; it is
  modelled from the collaborator contract of the specification, with fault
  injection (failing opens, short reads, short writes) and an operation log.
* Member functions are state-passing functions on `Storage × Medium`.
-/

namespace StructFS

/-- One octet of memory or of a file. -/
abbrev Byte := Fin 256

/-! ## The storage medium -/

/-- Modelled from the spec: the two modes of `open(path, "r"|"w")`. -/
inductive Mode where
  | r
  | w
  deriving DecidableEq, Repr

/-- Modelled from the spec: one call made to the storage medium collaborator
(`open`, `size`, `read`, `write`, `flush`, `close`), with what it returned. -/
inductive Op where
  | opened (path : String) (mode : Mode) (ok : Bool)
  | size (path : String) (result : Nat)
  | read (path : String) (requested got : Nat)
  | write (path : String) (requested written : Nat)
  | flush (path : String)
  | close (path : String)
  deriving DecidableEq, Repr

/-- Modelled from the spec: the storage medium collaborator (`fs::FS`), which
is not part of the repository. `files` maps a path to the bytes durably stored
there. The three scripts inject faults: the k-th `open` fails when the k-th
entry of `openFaults` is `true`; the k-th `read` (resp. `write`) transfers at
most as many bytes as the k-th entry of `readCaps` (resp. `writeCaps`); a call
beyond the end of its script is not faulted. `log` records every call. -/
structure Medium where
  files : String → Option (List Byte)
  openFaults : List Bool
  readCaps : List Nat
  writeCaps : List Nat
  log : List Op

/-- Modelled from the spec: a file handle (`File`): the path it was opened on
and the read position. -/
structure File where
  path : String
  pos : Nat
  deriving DecidableEq, Repr

/-- Modelled from the spec: `open(path, mode) -> handle | failure`. Opening for
reading fails when no file is stored at the path; `"w"` truncates/creates. An
injected fault makes the call fail and leaves the stored files alone. -/
def Medium.fsOpen (m : Medium) (path : String) (mode : Mode) : Option File × Medium :=
  let faulted := m.openFaults.head?.getD false
  let ok : Bool :=
    match mode with
    | Mode.r => !faulted && (m.files path).isSome
    | Mode.w => !faulted
  let files' : String → Option (List Byte) :=
    match mode with
    | Mode.r => m.files
    | Mode.w => if ok then (fun p => if p = path then some [] else m.files p) else m.files
  (if ok then some { path := path, pos := 0 } else none,
   { m with files := files'
            openFaults := m.openFaults.tail
            log := m.log ++ [Op.opened path mode ok] })

/-- Modelled from the spec: `size(handle) -> integer bytes`. -/
def File.size (f : File) (m : Medium) : Nat × Medium :=
  let n := ((m.files f.path).getD []).length
  (n, { m with log := m.log ++ [Op.size f.path n] })

/-- Modelled from the spec: `read(handle, buffer, n) -> bytes actually read`.
Returns the bytes placed in the buffer (their number is the call's result): the
stored bytes from the read position on, at most `n` of them, and at most the
pending read cap if there is one. -/
def File.read (f : File) (m : Medium) (n : Nat) : List Byte × File × Medium :=
  let avail := (((m.files f.path).getD []).drop f.pos).take n
  let got :=
    match m.readCaps with
    | [] => avail
    | c :: _ => avail.take c
  (got, { f with pos := f.pos + got.length },
   { m with readCaps := m.readCaps.tail
            log := m.log ++ [Op.read f.path n got.length] })

/-- Modelled from the spec: `write(handle, buffer, n) -> bytes actually
written`. Appends the bytes that are accepted (all of them, or at most the
pending write cap) to the file and returns their number. -/
def File.write (f : File) (m : Medium) (buf : List Byte) : Nat × File × Medium :=
  let k :=
    match m.writeCaps with
    | [] => buf.length
    | c :: _ => min c buf.length
  let content := ((m.files f.path).getD []) ++ buf.take k
  (k, { f with pos := f.pos + k },
   { m with files := fun p => if p = f.path then some content else m.files p
            writeCaps := m.writeCaps.tail
            log := m.log ++ [Op.write f.path buf.length k] })

/-- Modelled from the spec: `flush(handle)`. -/
def File.flush (f : File) (m : Medium) : Medium :=
  { m with log := m.log ++ [Op.flush f.path] }

/-- Modelled from the spec: `close(handle)`. -/
def File.close (f : File) (m : Medium) : Medium :=
  { m with log := m.log ++ [Op.close f.path] }

/-! ## Header layout -/

/-- The value of a little-endian byte string. -/
def fromLE : List Byte → Nat
  | [] => 0
  | b :: bs => b.val + 256 * fromLE bs

/-- The `k` low-order bytes of `x`, least significant first (the object
representation of an unsigned integer of `k` bytes on a little-endian host). -/
def toLE : Nat → Nat → List Byte
  | 0, _ => []
  | k + 1, x => ⟨x % 256, Nat.mod_lt _ (by decide)⟩ :: toLE k (x / 256)

/-- `struct Header { uint32_t magic; uint16_t version; uint16_t dataSize;
uint32_t crc; } __attribute__((packed))`. -/
structure Header where
  magic : Nat
  version : Nat
  dataSize : Nat
  crc : Nat
  deriving DecidableEq, Repr

/-- `sizeof(Header)`: the struct is packed, 4 + 2 + 2 + 4 bytes. -/
def sizeofHeader : Nat := 12

/-- The object representation of a header (`reinterpret_cast<const uint8_t*>(&hdr)`),
fields in declaration order without padding, each in the host's little-endian
byte order. -/
def Header.toBytes (h : Header) : List Byte :=
  toLE 4 h.magic ++ toLE 2 h.version ++ toLE 2 h.dataSize ++ toLE 4 h.crc

/-- The header whose object representation is the given 12 bytes (what
`f.read(reinterpret_cast<uint8_t*>(&hdr), sizeof(hdr))` leaves in `hdr`). -/
def Header.ofBytes (bs : List Byte) : Header :=
  { magic := fromLE (bs.take 4)
    version := fromLE ((bs.drop 4).take 2)
    dataSize := fromLE ((bs.drop 6).take 2)
    crc := fromLE ((bs.drop 8).take 4) }

/-! ## CRC-32 -/

/-- One pass of the inner loop of `crc32`:
`if (crc & 1) crc = (crc >> 1) ^ 0xEDB88320u; else crc >>= 1;`. -/
def crcBit (crc : Nat) : Nat :=
  if crc % 2 = 1 then (crc / 2) ^^^ 0xEDB88320 else crc / 2

/-- One pass of the outer loop of `crc32`: `crc ^= *p++;` then eight passes of
the inner loop. -/
def crcByte (crc : Nat) (b : Byte) : Nat :=
  crcBit^[8] (crc ^^^ b.val)

/-- `Storage::crc32`: the register starts at `0xFFFFFFFF`, absorbs each byte,
and is complemented (`~crc` on 32 bits) at the end. -/
def crc32 (data : List Byte) : Nat :=
  0xFFFFFFFF ^^^ data.foldl crcByte 0xFFFFFFFF

/-! ## The store -/

/-- `StructFS::Storage<T>`. `sizeofT` is `sizeof(T)` and `data_` the object
representation of the payload. The medium reference `fs_` is not a field: the
medium is threaded through the operations. `defaultsCalls` is a ghost counter
of the invocations of the defaults generator. -/
structure Storage where
  sizeofT : Nat
  path_ : String
  magic_ : Nat
  version_ : Nat
  defaultsFn_ : Option (List Byte → List Byte)
  valid_ : Bool
  data_ : List Byte
  defaultsCalls : Nat

/-- The ranges the member types impose: `magic_` is a `uint32_t`, `version_` a
`uint16_t`, and `data_` occupies `sizeof(T)` bytes. -/
def Storage.WF (s : Storage) : Prop :=
  s.magic_ < 2 ^ 32 ∧ s.version_ < 2 ^ 16 ∧ s.data_.length = s.sizeofT

/-- `Storage::zeroDefaults`: `memset(&t, 0, sizeof(T))`. -/
def zeroDefaults (sizeofT : Nat) (_t : List Byte) : List Byte :=
  List.replicate sizeofT 0

/-- The default argument `magic = 0x31474643UL`. -/
def defaultMagic : Nat := 0x31474643

/-- The constructor `Storage(fs, path, version, magic, defaultsFn)`: `valid_`
starts false, `data_{}` is value-initialised (all zero), a null `defaultsFn`
is replaced by `&zeroDefaults`, and the generator is run on `data_`. -/
def Storage.new (sizeofT : Nat) (path : String) (version : Nat) (magic : Nat)
    (defaultsFn : Option (List Byte → List Byte)) : Storage :=
  let fn := match defaultsFn with
    | some g => g
    | none => zeroDefaults sizeofT
  { sizeofT := sizeofT
    path_ := path
    magic_ := magic
    version_ := version
    defaultsFn_ := some fn
    valid_ := false
    data_ := fn (List.replicate sizeofT 0)
    defaultsCalls := 1 }

/-- `Storage::data()`. -/
def Storage.data (s : Storage) : List Byte := s.data_

/-- `Storage::isValid()`. -/
def Storage.isValid (s : Storage) : Bool := s.valid_

/-- `Storage::load()`. Returns the result, the store and the medium after the
call. -/
def Storage.load (s : Storage) (m : Medium) : Bool × Storage × Medium :=
  let s := { s with valid_ := false }
  match m.fsOpen s.path_ Mode.r with
  | (none, m) => (false, s, m)
  | (some f, m) =>
    let (sz, m) := f.size m
    if sz < sizeofHeader then (false, s, f.close m)
    else
      let (hb, f, m) := f.read m sizeofHeader
      if hb.length ≠ sizeofHeader then (false, s, f.close m)
      else
        let hdr := Header.ofBytes hb
        if hdr.magic ≠ s.magic_ ∨ hdr.version ≠ s.version_ ∨ hdr.dataSize ≠ s.sizeofT then
          (false, s, f.close m)
        else
          let (buf, f, m) := f.read m hdr.dataSize
          if buf.length ≠ hdr.dataSize then (false, s, f.close m)
          else
            let m := f.close m
            let calcCrc := crc32 (buf.take hdr.dataSize)
            if calcCrc ≠ hdr.crc then (false, s, m)
            else (true, { s with data_ := buf.take s.sizeofT, valid_ := true }, m)

/-- The header built at the start of `Storage::save`: `hdr.magic = magic_`,
`hdr.version = version_`, `hdr.dataSize = sizeof(T)` (converted to `uint16_t`),
`hdr.crc = crc32(&data_, sizeof(T))`. -/
def Storage.header (s : Storage) : Header :=
  { magic := s.magic_
    version := s.version_
    dataSize := s.sizeofT % 2 ^ 16
    crc := crc32 (s.data_.take s.sizeofT) }

/-- `Storage::save() const`. Returns the result and the medium after the call;
the store is not changed. -/
def Storage.save (s : Storage) (m : Medium) : Bool × Medium :=
  let hdr : Header := s.header
  match m.fsOpen s.path_ Mode.w with
  | (none, m) => (false, m)
  | (some f, m) =>
    let (k, f, m) := f.write m hdr.toBytes
    if k ≠ sizeofHeader then
      let m := f.flush m
      (false, f.close m)
    else
      let (k, f, m) := f.write m (s.data_.take s.sizeofT)
      let ok : Bool := decide (k = s.sizeofT)
      let m := f.flush m
      (ok, f.close m)

/-- `Storage::resetToDefaults(bool autosave)`. -/
def Storage.resetToDefaults (s : Storage) (m : Medium) (autosave : Bool) : Storage × Medium :=
  let d := match s.defaultsFn_ with
    | some g => g s.data_
    | none => zeroDefaults s.sizeofT s.data_
  let s := { s with data_ := d, valid_ := false, defaultsCalls := s.defaultsCalls + 1 }
  if autosave then
    let (ok, m) := s.save m
    if ok then ({ s with valid_ := true }, m) else (s, m)
  else (s, m)

/-- `Storage::loadOrDefault()`. -/
def Storage.loadOrDefault (s : Storage) (m : Medium) : Bool × Storage × Medium :=
  match s.load m with
  | (true, s, m) => (true, s, m)
  | (false, s, m) =>
    let (s, m) := s.resetToDefaults m false
    let (ok, m) := s.save m
    (ok, { s with valid_ := ok }, m)

/-! ## Vocabulary of the properties -/

/-- Modelled from the spec: the medium injects no fault into `open`: opening
for writing succeeds, and opening for reading succeeds when the file exists. -/
def Medium.opensSucceed (m : Medium) : Prop := m.openFaults = []

/-- Modelled from the spec: reads return the stored bytes (no read is cut short
by the medium). -/
def Medium.readsFaithful (m : Medium) : Prop := m.readCaps = []

/-- Modelled from the spec: writes are complete (every byte handed to `write`
is written). -/
def Medium.writesComplete (m : Medium) : Prop := m.writeCaps = []

/-- Calls that change what is stored on the medium: opening for writing (which
truncates), writing and flushing. -/
def Op.mutates : Op → Bool
  | Op.opened _ Mode.w _ => true
  | Op.write _ _ _ => true
  | Op.flush _ => true
  | _ => false

/-- The output of the defaults generator on the current payload, as
`resetToDefaults` obtains it: that of the bound generator, or zero fill when
none is bound. -/
def Storage.defaultsOutput (s : Storage) : List Byte :=
  match s.defaultsFn_ with
  | some g => g s.data_
  | none => List.replicate s.sizeofT 0

/-- The payload region of a file: `sizeofT` bytes from offset 12 (what `load`
reads into `buf`). -/
def payloadOf (sizeofT : Nat) (bytes : List Byte) : List Byte :=
  (bytes.drop sizeofHeader).take sizeofT

/-- The byte `b` with bit `k % 8` inverted. -/
def flipBit (b : Byte) (k : Nat) : Byte :=
  ⟨b.val ^^^ 2 ^ (k % 8),
    Nat.xor_lt_two_pow (n := 8) b.isLt
      (Nat.pow_lt_pow_right (by decide) (Nat.mod_lt _ (by decide)))⟩

/-- The file `bytes` with bit `i` of its payload region inverted: the payload
region starts at byte 12, and bit `i` of it is bit `i % 8` of byte `12 + i / 8`. -/
def flipPayloadBit (bytes : List Byte) (i : Nat) : List Byte :=
  bytes.set (sizeofHeader + i / 8) (flipBit (bytes.getD (sizeofHeader + i / 8) 0) i)

/-! ## The example sketch -/

/-- `sizeof(Config)` for `struct Config { uint32_t baud; uint8_t mode; char name[16]; }`
of `examples/basic.cpp`: 21 bytes of members, padded to the alignment of
`uint32_t`. -/
def sizeofConfig : Nat := 24

/-- `setDefaults` of `examples/basic.cpp`: `baud = 115200` at offset 0,
`mode = 1` at offset 4, and `strncpy(c.name, "default", 16)` at offsets 5 to 20
(the string, then zero fill); the three padding bytes keep their value. -/
def setDefaults (c : List Byte) : List Byte :=
  toLE 4 115200 ++ [1] ++ [100, 101, 102, 97, 117, 108, 116] ++ List.replicate 9 0 ++
    (c.drop 21).take 3

/-- The store `cfg(SPIFFS, "/config.bin", 1, 0x31474643UL, &setDefaults)` of
`examples/basic.cpp`. -/
def cfg : Storage := Storage.new sizeofConfig "/config.bin" 1 0x31474643 (some setDefaults)

/-- A medium that stores no file and injects no fault. -/
def emptyMedium : Medium :=
  { files := fun _ => none, openFaults := [], readCaps := [], writeCaps := [], log := [] }

/-- A fault-free medium that stores `bytes` at `path` and nothing else. -/
def mediumWith (path : String) (bytes : List Byte) : Medium :=
  { files := fun p => if p = path then some bytes else none
    openFaults := [], readCaps := [], writeCaps := [], log := [] }

/-- The file `cfg.save()` writes: the header (magic `CFG1`, version 1, size 24,
CRC-32 `0x19D5C357`) and the 24 payload bytes of the defaults. -/
def cfgFile : List Byte :=
  [67, 70, 71, 49, 1, 0, 24, 0, 87, 195, 213, 25,
   0, 194, 1, 0, 1, 100, 101, 102, 97, 117, 108, 116, 0, 0, 0, 0, 0, 0, 0, 0, 0, 0, 0, 0]

/-- A medium without a file whose third write accepts no byte: the writes of a
first `save()` (12 and 24 bytes) are complete, the header write of a second
`save()` is short. -/
def flakyMedium : Medium :=
  { files := fun _ => none, openFaults := [], readCaps := [], writeCaps := [12, 24, 0], log := [] }

/-- A store for a payload type of 65536 bytes. -/
def bigStore : Storage := Storage.new 65536 "/big.bin" 1 defaultMagic none

/-! ## Sequences of calls -/

/-- A call of one of the four operations of the store that touch the medium. -/
inductive Call where
  | load
  | save
  | loadOrDefault
  | resetToDefaults (autosave : Bool)
  deriving DecidableEq, Repr

/-- A call of `save()` as a transition of store and medium: `save` is a `const`
member function and no member is `mutable`, so the store after the call is the
store before it. -/
def Storage.callSave (s : Storage) (m : Medium) : Bool × Storage × Medium :=
  ((s.save m).1, s, (s.save m).2)

/-- The constructor as a transition: it binds the reference `fs_(fs)` and makes
no call on the medium. -/
def Storage.construct (m : Medium) (sizeofT : Nat) (path : String) (version : Nat) (magic : Nat)
    (defaultsFn : Option (List Byte → List Byte)) : Storage × Medium :=
  (Storage.new sizeofT path version magic defaultsFn, m)

/-- One call: its result, the store and the medium afterwards.
`resetToDefaults` returns nothing, which is rendered as `true`. -/
def Call.exec : Call → Storage → Medium → Bool × Storage × Medium
  | Call.load, s, m => s.load m
  | Call.save, s, m => s.callSave m
  | Call.loadOrDefault, s, m => s.loadOrDefault m
  | Call.resetToDefaults a, s, m => (true, s.resetToDefaults m a)

/-- The store and the medium after a sequence of calls. -/
def run : List Call → Storage → Medium → Storage × Medium
  | [], s, m => (s, m)
  | c :: cs, s, m => run cs (c.exec s m).2.1 (c.exec s m).2.2

/-- Whether every `save()` call of the sequence returns true. -/
def savesSucceed : List Call → Storage → Medium → Bool
  | [], _, _ => true
  | c :: cs, s, m =>
    (match c with
      | Call.save => (s.save m).1
      | _ => true) && savesSucceed cs (c.exec s m).2.1 (c.exec s m).2.2

/-- The file `bytes` is a well-formed record for the store `s` whose payload
equals the in-memory payload: at least 12 + n bytes, header magic, version and
size those of the store, checksum that of the payload region, and payload
region equal to `data_`. -/
def Storage.matchesFile (s : Storage) (bytes : List Byte) : Prop :=
  sizeofHeader + s.sizeofT ≤ bytes.length ∧
    (Header.ofBytes (bytes.take sizeofHeader)).magic = s.magic_ ∧
    (Header.ofBytes (bytes.take sizeofHeader)).version = s.version_ ∧
    (Header.ofBytes (bytes.take sizeofHeader)).dataSize = s.sizeofT ∧
    crc32 (payloadOf s.sizeofT bytes) = (Header.ofBytes (bytes.take sizeofHeader)).crc ∧
    payloadOf s.sizeofT bytes = s.data_

/-- The in-memory payload matches what is durably stored at the store's path. -/
def Storage.matchesMedium (s : Storage) (m : Medium) : Prop :=
  ∃ bytes, m.files s.path_ = some bytes ∧ s.matchesFile bytes

/-- The conditions under which a saved record can be read back: member ranges,
a payload size that fits the 16-bit `dataSize` field, and a generator that
fills a payload of the static size. -/
def Storage.Sound (s : Storage) : Prop :=
  s.WF ∧ s.sizeofT ≤ 65535 ∧
    ∀ f, s.defaultsFn_ = some f → ∀ d : List Byte, d.length = s.sizeofT →
      (f d).length = s.sizeofT

/-! ## Handles -/

/-- Whether a call is an `open` (successful or not). -/
def Op.isOpen : Op → Bool
  | Op.opened _ _ _ => true
  | _ => false

/-- Replays a sequence of medium calls, `held` telling whether a handle is held
at the start: `none` when a handle is opened while one is held, or when a call
is made on a handle that is not held; otherwise whether a handle is still held
at the end. -/
def replayHandles : List Op → Bool → Option Bool
  | [], held => some held
  | Op.opened _ _ ok :: ops, held => if held then none else replayHandles ops ok
  | Op.close _ :: ops, held => if held then replayHandles ops false else none
  | Op.size _ _ :: ops, held => if held then replayHandles ops true else none
  | Op.read _ _ _ :: ops, held => if held then replayHandles ops true else none
  | Op.write _ _ _ :: ops, held => if held then replayHandles ops true else none
  | Op.flush _ :: ops, held => if held then replayHandles ops true else none

/-- Whether every `close` of the sequence comes directly after a `flush` of the
same path; `prev` is the call before the sequence. -/
def closesAfterFlush : List Op → Option Op → Bool
  | [], _ => true
  | Op.close p :: ops, prev =>
    decide (prev = some (Op.flush p)) && closesAfterFlush ops (some (Op.close p))
  | Op.opened p md ok :: ops, _ => closesAfterFlush ops (some (Op.opened p md ok))
  | Op.size p k :: ops, _ => closesAfterFlush ops (some (Op.size p k))
  | Op.read p a b :: ops, _ => closesAfterFlush ops (some (Op.read p a b))
  | Op.write p a b :: ops, _ => closesAfterFlush ops (some (Op.write p a b))
  | Op.flush p :: ops, _ => closesAfterFlush ops (some (Op.flush p))

/-! ## The table-driven reference CRC-32 -/

/-- The lookup table of the standard reflected CRC-32 (polynomial
`0xEDB88320`), 256 entries. -/
def crcTable : List Nat :=
  [
   0x00000000, 0x77073096, 0xEE0E612C, 0x990951BA, 0x076DC419, 0x706AF48F,
   0xE963A535, 0x9E6495A3, 0x0EDB8832, 0x79DCB8A4, 0xE0D5E91E, 0x97D2D988,
   0x09B64C2B, 0x7EB17CBD, 0xE7B82D07, 0x90BF1D91, 0x1DB71064, 0x6AB020F2,
   0xF3B97148, 0x84BE41DE, 0x1ADAD47D, 0x6DDDE4EB, 0xF4D4B551, 0x83D385C7,
   0x136C9856, 0x646BA8C0, 0xFD62F97A, 0x8A65C9EC, 0x14015C4F, 0x63066CD9,
   0xFA0F3D63, 0x8D080DF5, 0x3B6E20C8, 0x4C69105E, 0xD56041E4, 0xA2677172,
   0x3C03E4D1, 0x4B04D447, 0xD20D85FD, 0xA50AB56B, 0x35B5A8FA, 0x42B2986C,
   0xDBBBC9D6, 0xACBCF940, 0x32D86CE3, 0x45DF5C75, 0xDCD60DCF, 0xABD13D59,
   0x26D930AC, 0x51DE003A, 0xC8D75180, 0xBFD06116, 0x21B4F4B5, 0x56B3C423,
   0xCFBA9599, 0xB8BDA50F, 0x2802B89E, 0x5F058808, 0xC60CD9B2, 0xB10BE924,
   0x2F6F7C87, 0x58684C11, 0xC1611DAB, 0xB6662D3D, 0x76DC4190, 0x01DB7106,
   0x98D220BC, 0xEFD5102A, 0x71B18589, 0x06B6B51F, 0x9FBFE4A5, 0xE8B8D433,
   0x7807C9A2, 0x0F00F934, 0x9609A88E, 0xE10E9818, 0x7F6A0DBB, 0x086D3D2D,
   0x91646C97, 0xE6635C01, 0x6B6B51F4, 0x1C6C6162, 0x856530D8, 0xF262004E,
   0x6C0695ED, 0x1B01A57B, 0x8208F4C1, 0xF50FC457, 0x65B0D9C6, 0x12B7E950,
   0x8BBEB8EA, 0xFCB9887C, 0x62DD1DDF, 0x15DA2D49, 0x8CD37CF3, 0xFBD44C65,
   0x4DB26158, 0x3AB551CE, 0xA3BC0074, 0xD4BB30E2, 0x4ADFA541, 0x3DD895D7,
   0xA4D1C46D, 0xD3D6F4FB, 0x4369E96A, 0x346ED9FC, 0xAD678846, 0xDA60B8D0,
   0x44042D73, 0x33031DE5, 0xAA0A4C5F, 0xDD0D7CC9, 0x5005713C, 0x270241AA,
   0xBE0B1010, 0xC90C2086, 0x5768B525, 0x206F85B3, 0xB966D409, 0xCE61E49F,
   0x5EDEF90E, 0x29D9C998, 0xB0D09822, 0xC7D7A8B4, 0x59B33D17, 0x2EB40D81,
   0xB7BD5C3B, 0xC0BA6CAD, 0xEDB88320, 0x9ABFB3B6, 0x03B6E20C, 0x74B1D29A,
   0xEAD54739, 0x9DD277AF, 0x04DB2615, 0x73DC1683, 0xE3630B12, 0x94643B84,
   0x0D6D6A3E, 0x7A6A5AA8, 0xE40ECF0B, 0x9309FF9D, 0x0A00AE27, 0x7D079EB1,
   0xF00F9344, 0x8708A3D2, 0x1E01F268, 0x6906C2FE, 0xF762575D, 0x806567CB,
   0x196C3671, 0x6E6B06E7, 0xFED41B76, 0x89D32BE0, 0x10DA7A5A, 0x67DD4ACC,
   0xF9B9DF6F, 0x8EBEEFF9, 0x17B7BE43, 0x60B08ED5, 0xD6D6A3E8, 0xA1D1937E,
   0x38D8C2C4, 0x4FDFF252, 0xD1BB67F1, 0xA6BC5767, 0x3FB506DD, 0x48B2364B,
   0xD80D2BDA, 0xAF0A1B4C, 0x36034AF6, 0x41047A60, 0xDF60EFC3, 0xA867DF55,
   0x316E8EEF, 0x4669BE79, 0xCB61B38C, 0xBC66831A, 0x256FD2A0, 0x5268E236,
   0xCC0C7795, 0xBB0B4703, 0x220216B9, 0x5505262F, 0xC5BA3BBE, 0xB2BD0B28,
   0x2BB45A92, 0x5CB36A04, 0xC2D7FFA7, 0xB5D0CF31, 0x2CD99E8B, 0x5BDEAE1D,
   0x9B64C2B0, 0xEC63F226, 0x756AA39C, 0x026D930A, 0x9C0906A9, 0xEB0E363F,
   0x72076785, 0x05005713, 0x95BF4A82, 0xE2B87A14, 0x7BB12BAE, 0x0CB61B38,
   0x92D28E9B, 0xE5D5BE0D, 0x7CDCEFB7, 0x0BDBDF21, 0x86D3D2D4, 0xF1D4E242,
   0x68DDB3F8, 0x1FDA836E, 0x81BE16CD, 0xF6B9265B, 0x6FB077E1, 0x18B74777,
   0x88085AE6, 0xFF0F6A70, 0x66063BCA, 0x11010B5C, 0x8F659EFF, 0xF862AE69,
   0x616BFFD3, 0x166CCF45, 0xA00AE278, 0xD70DD2EE, 0x4E048354, 0x3903B3C2,
   0xA7672661, 0xD06016F7, 0x4969474D, 0x3E6E77DB, 0xAED16A4A, 0xD9D65ADC,
   0x40DF0B66, 0x37D83BF0, 0xA9BCAE53, 0xDEBB9EC5, 0x47B2CF7F, 0x30B5FFE9,
   0xBDBDF21C, 0xCABAC28A, 0x53B39330, 0x24B4A3A6, 0xBAD03605, 0xCDD70693,
   0x54DE5729, 0x23D967BF, 0xB3667A2E, 0xC4614AB8, 0x5D681B02, 0x2A6F2B94,
   0xB40BBE37, 0xC30C8EA1, 0x5A05DF1B, 0x2D02EF8D]

/-- One step of the byte-at-a-time table-driven CRC-32:
`crc := table[(crc xor b) and 0xFF] xor (crc >> 8)`. -/
def crcTableStep (crc : Nat) (b : Byte) : Nat :=
  crcTable.getD ((crc ^^^ b.val) &&& 0xFF) 0 ^^^ (crc >>> 8)

/-- The standard CRC-32 in its table-driven form: initial register
`0xFFFFFFFF`, one table step per byte, final one's complement. -/
def crc32Reference (data : List Byte) : Nat :=
  0xFFFFFFFF ^^^ data.foldl crcTableStep 0xFFFFFFFF

/-! ## Facts about the medium -/

theorem fsOpen_r_some {m : Medium} {path : String} {f : File} {m1 : Medium}
    (h : m.fsOpen path Mode.r = (some f, m1)) :
    f = { path := path, pos := 0 } ∧ m1.files = m.files ∧ (m.files path).isSome = true ∧
      m1.openFaults = m.openFaults.tail ∧ m1.readCaps = m.readCaps ∧
      m1.writeCaps = m.writeCaps ∧ m1.log = m.log ++ [Op.opened path Mode.r true] := by
  unfold Medium.fsOpen at h
  simp only [Prod.mk.injEq] at h
  obtain ⟨h1, h2⟩ := h
  subst h2
  split at h1
  · rename_i hok
    simp only [Option.some.injEq] at h1
    simp only [Bool.and_eq_true] at hok
    simp [← h1, hok]
  · simp at h1

theorem read_length_le (f : File) (m : Medium) (n : Nat) : (f.read m n).1.length ≤ n := by
  unfold File.read
  cases m.readCaps <;> simp

theorem read_full {f : File} {m : Medium} {n : Nat} (h : (f.read m n).1.length = n) :
    (f.read m n).1 = (((m.files f.path).getD []).drop f.pos).take n ∧
      n ≤ ((m.files f.path).getD []).length - f.pos := by
  unfold File.read at h ⊢
  cases hc : m.readCaps with
  | nil =>
    simp only [hc, List.length_take, List.length_drop] at h ⊢
    exact ⟨trivial, by omega⟩
  | cons c cs =>
    simp only [hc, List.length_take, List.length_drop] at h ⊢
    refine ⟨?_, by omega⟩
    apply List.take_of_length_le
    simp only [List.length_take, List.length_drop]
    omega

theorem read_snd (f : File) (m : Medium) (n : Nat) :
    (f.read m n).2.1 = { f with pos := f.pos + (f.read m n).1.length } ∧
      (f.read m n).2.2 = { m with readCaps := m.readCaps.tail
                                  log := m.log ++ [Op.read f.path n (f.read m n).1.length] } := by
  unfold File.read
  exact ⟨rfl, rfl⟩

/-! ## What `load` does -/

theorem load_cases (s : Storage) (m : Medium) :
    ((s.load m).1 = false ∧ (s.load m).2.1 = { s with valid_ := false }) ∨
    ((s.load m).1 = true ∧ ∃ bytes, m.files s.path_ = some bytes ∧
        sizeofHeader + s.sizeofT ≤ bytes.length ∧
        (Header.ofBytes (bytes.take sizeofHeader)).magic = s.magic_ ∧
        (Header.ofBytes (bytes.take sizeofHeader)).version = s.version_ ∧
        (Header.ofBytes (bytes.take sizeofHeader)).dataSize = s.sizeofT ∧
        crc32 (payloadOf s.sizeofT bytes) = (Header.ofBytes (bytes.take sizeofHeader)).crc ∧
        (s.load m).2.1 = { s with valid_ := true, data_ := payloadOf s.sizeofT bytes }) := by
  unfold Storage.load
  dsimp only
  split
  · exact Or.inl ⟨rfl, rfl⟩
  · rename_i r f m1 hopen
    obtain ⟨hf, hfiles, hsome, -⟩ := fsOpen_r_some hopen
    split
    · exact Or.inl ⟨rfl, rfl⟩
    · split
      · exact Or.inl ⟨rfl, rfl⟩
      · split
        · exact Or.inl ⟨rfl, rfl⟩
        · split
          · exact Or.inl ⟨rfl, rfl⟩
          · split
            · exact Or.inl ⟨rfl, rfl⟩
            · rename_i hsz hlen hhdr hlen2 hcrc
              right
              refine ⟨rfl, ?_⟩
              obtain ⟨bytes, hb⟩ := Option.isSome_iff_exists.mp hsome
              have hlen1 : (f.read (f.size m1).2 sizeofHeader).1.length = sizeofHeader := by
                simpa using hlen
              obtain ⟨hread1, hle1⟩ := read_full hlen1
              obtain ⟨hf2, hm2⟩ := read_snd f (f.size m1).2 sizeofHeader
              have hfs : (f.size m1).2.files = m.files := by
                unfold File.size; exact hfiles
              have hc : ((f.size m1).2.files f.path).getD [] = bytes := by
                rw [hfs, hf, hb]; rfl
              rw [hc] at hread1 hle1
              have hpos : f.pos = 0 := by rw [hf]
              rw [hpos] at hread1 hle1
              simp only [List.drop_zero, Nat.sub_zero] at hread1 hle1
              simp only [not_or, not_not] at hhdr
              obtain ⟨hmagic, hversion, hsize⟩ := hhdr
              rw [hsize] at hlen2 hcrc ⊢
              have hlen2' := not_not.mp hlen2
              obtain ⟨hread2, hle2⟩ := read_full hlen2'
              have hc2 : ((f.read (f.size m1).2 sizeofHeader).2.2.files
                  (f.read (f.size m1).2 sizeofHeader).2.1.path).getD [] = bytes := by
                rw [hf2, hm2]; exact hc
              have hpos2 : (f.read (f.size m1).2 sizeofHeader).2.1.pos = sizeofHeader := by
                rw [hf2]; simp only [hpos, hlen1, Nat.zero_add]
              rw [hc2, hpos2] at hread2 hle2
              rw [hread1] at hmagic hversion hsize hcrc
              have hcrc' := not_not.mp hcrc
              rw [hread2] at hcrc' ⊢
              have htake : List.take s.sizeofT (List.take s.sizeofT (List.drop sizeofHeader bytes)) =
                  payloadOf s.sizeofT bytes := by
                unfold payloadOf; rw [List.take_take, Nat.min_self]
              rw [htake] at hcrc' ⊢
              exact ⟨bytes, hb, by omega, hmagic, hversion, hsize, hcrc', rfl⟩

theorem load_of_wellformed (s : Storage) (m : Medium) (bytes : List Byte)
    (hopen : m.openFaults = []) (hcaps : m.readCaps = [])
    (hfile : m.files s.path_ = some bytes)
    (hlen : sizeofHeader + s.sizeofT ≤ bytes.length)
    (hmagic : (Header.ofBytes (bytes.take sizeofHeader)).magic = s.magic_)
    (hversion : (Header.ofBytes (bytes.take sizeofHeader)).version = s.version_)
    (hsize : (Header.ofBytes (bytes.take sizeofHeader)).dataSize = s.sizeofT)
    (hcrc : crc32 (payloadOf s.sizeofT bytes) = (Header.ofBytes (bytes.take sizeofHeader)).crc) :
    s.load m = (true, { s with valid_ := true, data_ := payloadOf s.sizeofT bytes },
      { m with log := m.log ++ [Op.opened s.path_ Mode.r true, Op.size s.path_ bytes.length,
          Op.read s.path_ sizeofHeader sizeofHeader, Op.read s.path_ s.sizeofT s.sizeofT,
          Op.close s.path_] }) := by
  have h12 : sizeofHeader = 12 := rfl
  have hl1 : (List.take sizeofHeader bytes).length = sizeofHeader := by
    rw [List.length_take]; omega
  have hl2 : (List.take s.sizeofT (List.drop sizeofHeader bytes)).length = s.sizeofT := by
    rw [List.length_take, List.length_drop]; omega
  unfold Storage.load
  simp only [Medium.fsOpen, File.size, File.read, File.close, hopen, hcaps, hfile,
    List.head?_nil, Option.getD_none, Option.getD_some, Option.isSome_some, Bool.not_false,
    Bool.and_self, if_true, List.tail_nil, List.drop_zero, hl1, Nat.zero_add]
  have hnlt : ¬ bytes.length < sizeofHeader := by omega
  unfold payloadOf at hcrc ⊢
  simp only [hnlt, hmagic, hversion, hsize, hl2, hcrc, ne_eq, not_true_eq_false, or_self,
    if_false, List.take_take, Nat.min_self, List.append_assoc, List.singleton_append]
  rfl

/-! ## Header encoding -/

theorem toLE_length (k x : Nat) : (toLE k x).length = k := by
  induction k generalizing x with
  | zero => rfl
  | succ k ih => simp [toLE, ih]

theorem Header.toBytes_length (h : Header) : h.toBytes.length = sizeofHeader := by
  simp [Header.toBytes, toLE_length, sizeofHeader]

theorem Header.ofBytes_toBytes (h : Header) (hm : h.magic < 2 ^ 32) (hv : h.version < 2 ^ 16)
    (hd : h.dataSize < 2 ^ 16) (hc : h.crc < 2 ^ 32) : Header.ofBytes h.toBytes = h := by
  cases h with
  | mk a b c d =>
    simp only [Header.ofBytes, Header.toBytes, toLE, List.cons_append, List.nil_append,
      List.take_succ_cons, List.take_zero, List.drop_succ_cons, List.drop_zero, fromLE,
      Header.mk.injEq] at *
    refine ⟨?_, ?_, ?_, ?_⟩ <;> omega

theorem Header.take_toBytes_append (h : Header) (rest : List Byte) :
    (h.toBytes ++ rest).take sizeofHeader = h.toBytes := by
  rw [← Header.toBytes_length h, List.take_left]

theorem Header.drop_toBytes_append (h : Header) (rest : List Byte) :
    (h.toBytes ++ rest).drop sizeofHeader = rest := by
  rw [← Header.toBytes_length h, List.drop_left]

/-! ## What `save` does -/

theorem save_of_complete {s : Storage} {m : Medium}
    (hopen : m.openFaults = []) (hcaps : m.writeCaps = []) (hlen : s.data_.length = s.sizeofT) :
    s.save m = (true,
      { m with files := fun p => if p = s.path_ then some (s.header.toBytes ++ s.data_) else m.files p
               log := m.log ++ [Op.opened s.path_ Mode.w true,
                 Op.write s.path_ sizeofHeader sizeofHeader, Op.write s.path_ s.sizeofT s.sizeofT,
                 Op.flush s.path_, Op.close s.path_] }) := by
  have htake : s.data_.take s.sizeofT = s.data_ := List.take_of_length_le (by omega)
  unfold Storage.save
  simp only [Medium.fsOpen, File.write, File.flush, File.close, hopen, hcaps, htake,
    List.head?_nil, Option.getD_none, Bool.not_false, if_true, List.tail_nil,
    Header.toBytes_length, hlen, ne_eq, not_true_eq_false, if_false, decide_True]
  have hh : ∀ h : Header, List.take sizeofHeader h.toBytes = h.toBytes := fun h =>
    List.take_of_length_le (by rw [Header.toBytes_length])
  simp only [hh, Option.getD_some, List.nil_append, List.append_assoc, List.singleton_append,
    Prod.mk.injEq, Medium.mk.injEq, true_and, and_true]
  refine ⟨?_, rfl⟩
  funext p
  by_cases hp : p = s.path_
  · simp only [hp, if_true]
  · simp only [hp, if_false]

theorem fsOpen_w_some {m : Medium} {path : String} {f : File} {m1 : Medium}
    (h : m.fsOpen path Mode.w = (some f, m1)) :
    f = { path := path, pos := 0 } ∧
      m1.files = (fun p => if p = path then some [] else m.files p) ∧
      m1.openFaults = m.openFaults.tail ∧ m1.readCaps = m.readCaps ∧
      m1.writeCaps = m.writeCaps ∧ m1.log = m.log ++ [Op.opened path Mode.w true] := by
  unfold Medium.fsOpen at h
  simp only [Prod.mk.injEq] at h
  obtain ⟨h1, h2⟩ := h
  subst h2
  split at h1
  · rename_i hok
    simp only [Option.some.injEq] at h1
    simp [← h1, hok]
  · simp at h1

theorem write_spec (f : File) (m : Medium) (buf : List Byte) :
    (f.write m buf).1 ≤ buf.length ∧ (f.write m buf).2.1.path = f.path ∧
      (f.write m buf).2.2.files = (fun p => if p = f.path then
        some ((m.files f.path).getD [] ++ buf.take (f.write m buf).1) else m.files p) ∧
      (f.write m buf).2.2.openFaults = m.openFaults ∧
      (f.write m buf).2.2.readCaps = m.readCaps ∧
      (f.write m buf).2.2.writeCaps = m.writeCaps.tail := by
  unfold File.write
  refine ⟨?_, rfl, rfl, rfl, rfl, rfl⟩
  cases m.writeCaps
  · exact Nat.le_refl _
  · exact Nat.min_le_right _ _

theorem save_true {s : Storage} {m : Medium} (h : (s.save m).1 = true) :
    (s.save m).2.files s.path_ = some (s.header.toBytes ++ s.data_.take s.sizeofT) ∧
      (s.data_.take s.sizeofT).length = s.sizeofT ∧
      (∀ p, p ≠ s.path_ → (s.save m).2.files p = m.files p) ∧
      (s.save m).2.openFaults = m.openFaults.tail ∧
      (s.save m).2.readCaps = m.readCaps := by
  generalize hr : s.save m = r at h ⊢
  unfold Storage.save at hr
  dsimp only at hr
  split at hr
  · subst hr; simp at h
  · rename_i r0 f m1 hopen
    obtain ⟨hf, hfiles, hof, hrc, -⟩ := fsOpen_w_some hopen
    subst hf
    generalize hf0 : ({ path := s.path_, pos := 0 } : File) = f at hr
    have hfp : f.path = s.path_ := by rw [← hf0]
    obtain ⟨hle1, hp1, hfiles1, hof1, hrc1, -⟩ := write_spec f m1 s.header.toBytes
    obtain ⟨hle2, hp2, hfiles2, hof2, hrc2, -⟩ := write_spec (f.write m1 s.header.toBytes).2.1
      (f.write m1 s.header.toBytes).2.2 (s.data_.take s.sizeofT)
    split at hr
    · subst hr; simp at h
    · rename_i hk
      subst hr
      replace h : ((f.write m1 s.header.toBytes).2.1.write (f.write m1 s.header.toBytes).2.2
          (List.take s.sizeofT s.data_)).1 = s.sizeofT := by simpa using h
      have hk' := not_not.mp hk
      have hlen : (s.data_.take s.sizeofT).length = s.sizeofT := by
        have := List.length_take_le s.sizeofT s.data_
        omega
      simp only [File.flush, File.close]
      rw [hfiles2, hp1, hfiles1, hof2, hof1, hof, hrc2, hrc1, hrc, hfiles, h, hk', hfp]
      refine ⟨?_, hlen, ?_, rfl, rfl⟩
      · simp only [if_true, Option.getD_some, List.nil_append]
        rw [List.take_take, Nat.min_self,
          List.take_of_length_le (Nat.le_of_eq (Header.toBytes_length s.header))]
      · intro p hp
        simp only [hp, if_false]

/-! ## The CRC register -/

theorem crcBit_lt {c : Nat} (h : c < 2 ^ 32) : crcBit c < 2 ^ 32 := by
  unfold crcBit
  split
  · exact Nat.xor_lt_two_pow (by omega) (by decide)
  · omega

theorem crcBit_inj {c d : Nat} (hc : c < 2 ^ 32) (hd : d < 2 ^ 32)
    (h : crcBit c = crcBit d) : c = d := by
  have top : ∀ x y : Nat, x < 2 ^ 31 → y < 2 ^ 31 → x ^^^ 0xEDB88320 ≠ y := by
    intro x y hx hy hxy
    have h1 : (x ^^^ 0xEDB88320).testBit 31 = true := by
      rw [Nat.testBit_xor, Nat.testBit_lt_two_pow hx]
      decide
    rw [hxy, Nat.testBit_lt_two_pow hy] at h1
    exact Bool.noConfusion h1
  unfold crcBit at h
  split at h <;> split at h
  · have := Nat.xor_left_injective h
    omega
  · exact absurd h (top _ _ (by omega) (by omega))
  · exact absurd h.symm (top _ _ (by omega) (by omega))
  · omega

theorem crcBit_iterate_lt (k : Nat) {c : Nat} (h : c < 2 ^ 32) : crcBit^[k] c < 2 ^ 32 := by
  induction k generalizing c with
  | zero => exact h
  | succ k ih => rw [Function.iterate_succ_apply]; exact ih (crcBit_lt h)

theorem crcBit_iterate_inj (k : Nat) {c d : Nat} (hc : c < 2 ^ 32) (hd : d < 2 ^ 32)
    (h : crcBit^[k] c = crcBit^[k] d) : c = d := by
  induction k generalizing c d with
  | zero => exact h
  | succ k ih =>
    rw [Function.iterate_succ_apply, Function.iterate_succ_apply] at h
    exact crcBit_inj hc hd (ih (crcBit_lt hc) (crcBit_lt hd) h)

theorem byte_lt (b : Byte) : b.val < 2 ^ 32 := by
  have := b.isLt
  omega

theorem crcByte_lt {c : Nat} (h : c < 2 ^ 32) (b : Byte) : crcByte c b < 2 ^ 32 :=
  crcBit_iterate_lt 8 (Nat.xor_lt_two_pow h (byte_lt b))

theorem crcByte_inj_state {c d : Nat} (hc : c < 2 ^ 32) (hd : d < 2 ^ 32) (b : Byte)
    (h : crcByte c b = crcByte d b) : c = d :=
  Nat.xor_left_injective (crcBit_iterate_inj 8 (Nat.xor_lt_two_pow hc (byte_lt b))
    (Nat.xor_lt_two_pow hd (byte_lt b)) h)

theorem crcByte_inj_byte {c : Nat} (hc : c < 2 ^ 32) (a b : Byte)
    (h : crcByte c a = crcByte c b) : a = b :=
  Fin.ext (Nat.xor_right_injective (crcBit_iterate_inj 8 (Nat.xor_lt_two_pow hc (byte_lt a))
    (Nat.xor_lt_two_pow hc (byte_lt b)) h))

theorem crc_foldl_lt (l : List Byte) {c : Nat} (h : c < 2 ^ 32) : l.foldl crcByte c < 2 ^ 32 := by
  induction l generalizing c with
  | nil => exact h
  | cons b l ih => exact ih (crcByte_lt h b)

theorem crc_foldl_inj (l : List Byte) {c d : Nat} (hc : c < 2 ^ 32) (hd : d < 2 ^ 32)
    (h : l.foldl crcByte c = l.foldl crcByte d) : c = d := by
  induction l generalizing c d with
  | nil => exact h
  | cons b l ih => exact crcByte_inj_state hc hd b (ih (crcByte_lt hc b) (crcByte_lt hd b) h)

/-- Two byte strings that differ in exactly one byte have different checksums. -/
theorem crc32_one_byte (pre suf : List Byte) (a b : Byte)
    (h : crc32 (pre ++ a :: suf) = crc32 (pre ++ b :: suf)) : a = b := by
  unfold crc32 at h
  have h1 := Nat.xor_right_injective h
  rw [List.foldl_append, List.foldl_append, List.foldl_cons, List.foldl_cons] at h1
  have hp : pre.foldl crcByte 0xFFFFFFFF < 2 ^ 32 := crc_foldl_lt pre (by decide)
  exact crcByte_inj_byte hp a b (crc_foldl_inj suf (crcByte_lt hp a) (crcByte_lt hp b) h1)

/-! ## Single-bit corruption -/

theorem flipBit_ne (b : Byte) (k : Nat) : flipBit b k ≠ b := by
  intro h
  have h1 : b.val ^^^ 2 ^ (k % 8) = b.val := congrArg Fin.val h
  have h2 : b.val ^^^ 2 ^ (k % 8) = b.val ^^^ 0 := by rw [h1, Nat.xor_zero]
  have h3 := Nat.xor_right_injective h2
  have : 0 < 2 ^ (k % 8) := Nat.pow_pos (by decide)
  omega

theorem crc32_set_ne (p : List Byte) (j : Nat) (x : Byte) (hj : j < p.length) (hx : x ≠ p[j]) :
    crc32 (p.set j x) ≠ crc32 p := by
  intro h
  have h1 : p = p.take j ++ p[j] :: p.drop (j + 1) := by
    conv_lhs => rw [← List.take_append_drop j p, List.drop_eq_getElem_cons hj]
  rw [List.set_eq_take_cons_drop x hj] at h
  conv_rhs at h => rw [h1]
  exact hx (crc32_one_byte _ _ _ _ h)

theorem payloadOf_length {n : Nat} {bytes : List Byte} (h : sizeofHeader + n ≤ bytes.length) :
    (payloadOf n bytes).length = n := by
  unfold payloadOf
  rw [List.length_take, List.length_drop]
  omega

theorem payloadOf_set (n : Nat) (bytes : List Byte) (j : Nat) (x : Byte) :
    payloadOf n (bytes.set (sizeofHeader + j) x) = (payloadOf n bytes).set j x := by
  unfold payloadOf
  rw [List.drop_set, if_neg (by omega), List.set_take, Nat.add_sub_cancel_left]

theorem payloadOf_getD {n : Nat} {bytes : List Byte} {j : Nat} (hj : j < n) :
    (payloadOf n bytes).getD j 0 = bytes.getD (sizeofHeader + j) 0 := by
  unfold payloadOf
  simp only [List.getD_eq_getElem?_getD, List.getElem?_take, hj, if_true, List.getElem?_drop]

theorem take_header_flip (bytes : List Byte) (i : Nat) :
    (flipPayloadBit bytes i).take sizeofHeader = bytes.take sizeofHeader := by
  unfold flipPayloadBit
  rw [List.set_take, List.set_eq_of_length_le]
  rw [List.length_take]
  omega

theorem crc32_lt (data : List Byte) : crc32 data < 2 ^ 32 :=
  Nat.xor_lt_two_pow (by decide) (crc_foldl_lt data (by decide))

theorem Storage.header_roundtrip {s : Storage} (hwf : s.WF) (hn : s.sizeofT ≤ 65535) :
    Header.ofBytes s.header.toBytes =
      { magic := s.magic_, version := s.version_, dataSize := s.sizeofT, crc := crc32 s.data_ } := by
  obtain ⟨hm, hv, hl⟩ := hwf
  have hd : s.sizeofT % 2 ^ 16 = s.sizeofT := Nat.mod_eq_of_lt (by omega)
  have ht : s.data_.take s.sizeofT = s.data_ := List.take_of_length_le (by omega)
  rw [Header.ofBytes_toBytes s.header hm hv (Nat.mod_lt _ (by decide)) (crc32_lt _)]
  simp only [Storage.header, hd, ht]

/-- Loading the file that `save` writes for the store `s`, by a store `t` with
the same magic, version and payload size, on a medium without read faults. -/
theorem load_saved_file {s t : Storage} {m : Medium} (hwf : s.WF) (hn : s.sizeofT ≤ 65535)
    (hmagic : t.magic_ = s.magic_) (hversion : t.version_ = s.version_)
    (hsize : t.sizeofT = s.sizeofT)
    (hfile : m.files t.path_ = some (s.header.toBytes ++ s.data_))
    (hopen : m.openFaults = []) (hread : m.readCaps = []) :
    (t.load m).1 = true ∧ (t.load m).2.1 = { t with valid_ := true, data_ := s.data_ } := by
  have ht : s.data_.take s.sizeofT = s.data_ := List.take_of_length_le (by rw [hwf.2.2])
  have hhdr := Storage.header_roundtrip hwf hn
  have hpay : payloadOf t.sizeofT (s.header.toBytes ++ s.data_) = s.data_ := by
    unfold payloadOf
    rw [Header.drop_toBytes_append, hsize, ht]
  have key := load_of_wellformed t m (s.header.toBytes ++ s.data_)
    hopen hread hfile
    (by rw [List.length_append, Header.toBytes_length, hwf.2.2, hsize])
    (by rw [Header.take_toBytes_append, hhdr, hmagic])
    (by rw [Header.take_toBytes_append, hhdr, hversion])
    (by rw [Header.take_toBytes_append, hhdr, hsize])
    (by rw [Header.take_toBytes_append, hhdr]; exact congrArg crc32 hpay)
  rw [key, hpay]
  exact ⟨rfl, rfl⟩

theorem load_no_file {s : Storage} {m : Medium} (h : m.files s.path_ = none) :
    s.load m = (false, { s with valid_ := false },
      { m with openFaults := m.openFaults.tail
               log := m.log ++ [Op.opened s.path_ Mode.r false] }) := by
  unfold Storage.load
  simp [Medium.fsOpen, h]

theorem loadOrDefault_of_load_true {s : Storage} {m : Medium} (h : (s.load m).1 = true) :
    s.loadOrDefault m = s.load m := by
  unfold Storage.loadOrDefault
  rcases hl : s.load m with ⟨b, s1, m1⟩
  rw [hl] at h
  cases b
  · exact Bool.noConfusion h
  · rfl

theorem fsOpen_r_medium (m : Medium) (path : String) :
    (m.fsOpen path Mode.r).2.files = m.files ∧
      (m.fsOpen path Mode.r).2.writeCaps = m.writeCaps ∧
      ∃ ok, (m.fsOpen path Mode.r).2.log = m.log ++ [Op.opened path Mode.r ok] := by
  unfold Medium.fsOpen
  exact ⟨rfl, rfl, _, rfl⟩

/-- What `load` does to the medium: the stored files and the pending write
faults are untouched, and the calls it makes change nothing on the medium. -/
theorem load_medium (s : Storage) (m : Medium) :
    (s.load m).2.2.files = m.files ∧ (s.load m).2.2.writeCaps = m.writeCaps ∧
      ∃ ops, (s.load m).2.2.log = m.log ++ ops ∧ ∀ op ∈ ops, op.mutates = false := by
  obtain ⟨h1, h2, ok, h3⟩ := fsOpen_r_medium m s.path_
  unfold Storage.load
  dsimp only
  split
  · rename_i r m1 hopen
    simp only [hopen] at h1 h2 h3
    exact ⟨h1, h2, _, h3, by simp [Op.mutates]⟩
  · rename_i r f m1 hopen
    simp only [hopen] at h1 h2 h3
    simp only [File.size, File.read, File.close]
    repeat' split
    all_goals
      refine ⟨h1, h2, ?_⟩
      simp only [h3, List.append_assoc]
      refine ⟨_, rfl, ?_⟩
      simp only [List.singleton_append, List.cons_append, List.nil_append, List.mem_cons,
        List.mem_singleton, List.not_mem_nil, or_false, forall_eq_or_imp, forall_eq, Op.mutates,
        and_self]

/-! ## Sequences of calls -/

/-- The store that `resetToDefaults` hands to `save`. -/
theorem resetToDefaults_eq (s : Storage) (m : Medium) (a : Bool) :
    s.resetToDefaults m a =
      if a then
        ({ s with data_ := s.defaultsOutput, defaultsCalls := s.defaultsCalls + 1,
                  valid_ := ({ s with data_ := s.defaultsOutput } : Storage).save m |>.1 },
          (({ s with data_ := s.defaultsOutput } : Storage).save m).2)
      else
        ({ s with data_ := s.defaultsOutput, defaultsCalls := s.defaultsCalls + 1,
                  valid_ := false }, m) := by
  have hd : (match s.defaultsFn_ with
      | some g => g s.data_
      | none => zeroDefaults s.sizeofT s.data_) = s.defaultsOutput := by
    unfold Storage.defaultsOutput zeroDefaults; rfl
  have hsave : ∀ v c, ({ s with data_ := s.defaultsOutput, valid_ := v, defaultsCalls := c } :
      Storage).save m = ({ s with data_ := s.defaultsOutput } : Storage).save m := fun _ _ => rfl
  unfold Storage.resetToDefaults
  simp only [hd, hsave]
  cases a
  · simp
  · simp only [if_true]
    cases hr : ({ s with data_ := s.defaultsOutput } : Storage).save m with
    | mk ok m1 => cases ok <;> rfl

theorem loadOrDefault_of_load_false {s : Storage} {m : Medium} (h : (s.load m).1 = false) :
    s.loadOrDefault m =
      ((({ s with data_ := s.defaultsOutput } : Storage).save (s.load m).2.2).1,
        { s with data_ := s.defaultsOutput, defaultsCalls := s.defaultsCalls + 1,
                 valid_ := (({ s with data_ := s.defaultsOutput } : Storage).save (s.load m).2.2).1 },
        (({ s with data_ := s.defaultsOutput } : Storage).save (s.load m).2.2).2) := by
  have hst : (s.load m).2.1 = { s with valid_ := false } := by
    rcases load_cases s m with ⟨-, hst⟩ | ⟨ht, -⟩
    · exact hst
    · rw [h] at ht; exact Bool.noConfusion ht
  unfold Storage.loadOrDefault
  rcases hl : s.load m with ⟨b, s1, m1⟩
  rw [hl] at h hst
  simp only at h hst
  subst h hst
  simp only [resetToDefaults_eq, Bool.false_eq_true, if_false]
  rfl

theorem matchesFile_saved {s : Storage} (hwf : s.WF) (hn : s.sizeofT ≤ 65535) :
    s.matchesFile (s.header.toBytes ++ s.data_) := by
  have ht : s.data_.take s.sizeofT = s.data_ := List.take_of_length_le (by rw [hwf.2.2])
  have hhdr := Storage.header_roundtrip hwf hn
  have hpay : payloadOf s.sizeofT (s.header.toBytes ++ s.data_) = s.data_ := by
    unfold payloadOf
    rw [Header.drop_toBytes_append, ht]
  unfold Storage.matchesFile
  rw [Header.take_toBytes_append, hhdr, hpay]
  exact ⟨by rw [List.length_append, Header.toBytes_length, hwf.2.2], rfl, rfl, rfl, rfl, rfl⟩

theorem defaultsOutput_length {s : Storage} (h : s.Sound) :
    s.defaultsOutput.length = s.sizeofT := by
  unfold Storage.defaultsOutput
  cases hf : s.defaultsFn_ with
  | none => exact List.length_replicate _ _
  | some f => exact h.2.2 f hf _ h.1.2.2

theorem save_matches {s : Storage} {m : Medium} (hs : s.Sound) (h : (s.save m).1 = true) :
    s.matchesMedium (s.save m).2 := by
  obtain ⟨hfile, -⟩ := save_true h
  have ht : s.data_.take s.sizeofT = s.data_ := List.take_of_length_le (by rw [hs.1.2.2])
  rw [ht] at hfile
  exact ⟨_, hfile, matchesFile_saved hs.1 hs.2.1⟩

/-- One call keeps the store sound, and after it a true flag implies that the
payload matches the stored file, unless the call is a `save()` that fails. -/
theorem exec_invariant (c : Call) (s : Storage) (m : Medium) (hs : s.Sound)
    (hsave : c = Call.save → (s.save m).1 = true) :
    (c.exec s m).2.1.Sound ∧
      ((c.exec s m).2.1.isValid = true → (c.exec s m).2.1.matchesMedium (c.exec s m).2.2) := by
  have hdl := defaultsOutput_length hs
  have hsd : ∀ v c, ({ s with data_ := s.defaultsOutput, defaultsCalls := c, valid_ := v } :
      Storage).Sound := fun v c => ⟨⟨hs.1.1, hs.1.2.1, hdl⟩, hs.2.1, hs.2.2⟩
  have hsd0 : ({ s with data_ := s.defaultsOutput } : Storage).Sound :=
    ⟨⟨hs.1.1, hs.1.2.1, hdl⟩, hs.2.1, hs.2.2⟩
  cases c with
  | load =>
    show (s.load m).2.1.Sound ∧ ((s.load m).2.1.isValid = true →
      (s.load m).2.1.matchesMedium (s.load m).2.2)
    obtain ⟨hfiles, -, -⟩ := load_medium s m
    rcases load_cases s m with ⟨-, hst⟩ | ⟨-, bytes, hb, hlen, hmagic, hversion, hsize, hcrc, hst⟩
    · rw [hst]
      exact ⟨⟨hs.1, hs.2.1, hs.2.2⟩, fun h => Bool.noConfusion h⟩
    · rw [hst]
      refine ⟨⟨⟨hs.1.1, hs.1.2.1, payloadOf_length hlen⟩, hs.2.1, hs.2.2⟩, fun _ => ?_⟩
      refine ⟨bytes, ?_, hlen, hmagic, hversion, hsize, hcrc, rfl⟩
      show (s.load m).2.2.files s.path_ = some bytes
      rw [hfiles, hb]
  | save =>
    show s.Sound ∧ (s.isValid = true → s.matchesMedium (s.save m).2)
    exact ⟨hs, fun _ => save_matches hs (hsave rfl)⟩
  | loadOrDefault =>
    show (s.loadOrDefault m).2.1.Sound ∧ ((s.loadOrDefault m).2.1.isValid = true →
      (s.loadOrDefault m).2.1.matchesMedium (s.loadOrDefault m).2.2)
    cases hl : (s.load m).1 with
    | true =>
      rw [loadOrDefault_of_load_true hl]
      obtain ⟨hfiles, -, -⟩ := load_medium s m
      rcases load_cases s m with ⟨hf, -⟩ | ⟨-, bytes, hb, hlen, hmagic, hversion, hsize, hcrc, hst⟩
      · rw [hl] at hf; exact Bool.noConfusion hf
      · rw [hst]
        refine ⟨⟨⟨hs.1.1, hs.1.2.1, payloadOf_length hlen⟩, hs.2.1, hs.2.2⟩, fun _ => ?_⟩
        refine ⟨bytes, ?_, hlen, hmagic, hversion, hsize, hcrc, rfl⟩
        show (s.load m).2.2.files s.path_ = some bytes
        rw [hfiles, hb]
    | false =>
      rw [loadOrDefault_of_load_false hl]
      refine ⟨hsd _ _, fun hv => ?_⟩
      exact save_matches hsd0 hv
  | resetToDefaults a =>
    show (s.resetToDefaults m a).1.Sound ∧ ((s.resetToDefaults m a).1.isValid = true →
      (s.resetToDefaults m a).1.matchesMedium (s.resetToDefaults m a).2)
    rw [resetToDefaults_eq]
    cases a
    · exact ⟨hsd _ _, fun h => Bool.noConfusion h⟩
    · exact ⟨hsd _ _, fun hv => save_matches hsd0 hv⟩

theorem run_invariant (cs : List Call) (s : Storage) (m : Medium) (hs : s.Sound)
    (hinv : s.isValid = true → s.matchesMedium m) (hsaves : savesSucceed cs s m = true) :
    (run cs s m).1.isValid = true → (run cs s m).1.matchesMedium (run cs s m).2 := by
  induction cs generalizing s m with
  | nil => exact hinv
  | cons c cs ih =>
    unfold savesSucceed at hsaves
    rw [Bool.and_eq_true] at hsaves
    have hstep := exec_invariant c s m hs (fun hc => by
      have h1 := hsaves.1
      rw [hc] at h1
      exact h1)
    exact ih _ _ hstep.1 hstep.2 hsaves.2

theorem new_sound (n : Nat) (path : String) (version magic : Nat)
    (g : Option (List Byte → List Byte)) (hmagic : magic < 2 ^ 32) (hversion : version < 2 ^ 16)
    (hn : n ≤ 65535)
    (hg : ∀ f, g = some f → ∀ d : List Byte, d.length = n → (f d).length = n) :
    (Storage.new n path version magic g).Sound := by
  cases g with
  | none =>
    refine ⟨⟨hmagic, hversion, List.length_replicate _ _⟩, hn, ?_⟩
    intro f hf d _
    have : f = zeroDefaults n := (Option.some.inj hf).symm
    rw [this]
    exact List.length_replicate _ _
  | some f0 =>
    refine ⟨⟨hmagic, hversion, hg f0 rfl _ (List.length_replicate _ _)⟩, hn, ?_⟩
    intro f hf d hd
    have : f = f0 := (Option.some.inj hf).symm
    rw [this]
    exact hg f0 rfl d hd

theorem load_flag (t : Storage) (k : Medium) : (t.load k).2.1.isValid = (t.load k).1 := by
  rcases load_cases t k with ⟨hf, hst⟩ | ⟨ht, bytes, -, -, -, -, -, -, hst⟩
  · rw [hf, hst]; rfl
  · rw [ht, hst]; rfl

theorem loadOrDefault_flag (t : Storage) (k : Medium) :
    (t.loadOrDefault k).2.1.isValid = (t.loadOrDefault k).1 := by
  cases hl : (t.load k).1 with
  | true => rw [loadOrDefault_of_load_true hl, load_flag]
  | false => rw [loadOrDefault_of_load_false hl]; rfl

/-! ## The claims -/

set_option maxRecDepth 100000

/-- C1 (round trip). For every magic, version and payload whose size fits the
16-bit `dataSize` field: if `save()` returns true, and the medium afterwards
opens the file and returns the stored bytes on reads, then `load()` on a fresh
store built with the same path, magic and version (and any defaults generator)
returns true, sets `isValid()` and leaves the payload equal to the saved one. -/
theorem save_load_round_trip (s : Storage) (m : Medium) (g : Option (List Byte → List Byte))
    (hwf : s.WF) (hn : s.sizeofT ≤ 65535) (hsave : (s.save m).1 = true)
    (hopen : (s.save m).2.opensSucceed) (hread : (s.save m).2.readsFaithful) :
    ((Storage.new s.sizeofT s.path_ s.version_ s.magic_ g).load (s.save m).2).1 = true ∧
      ((Storage.new s.sizeofT s.path_ s.version_ s.magic_ g).load (s.save m).2).2.1.isValid = true ∧
      ((Storage.new s.sizeofT s.path_ s.version_ s.magic_ g).load (s.save m).2).2.1.data = s.data := by
  obtain ⟨hfile, -⟩ := save_true hsave
  have ht : s.data_.take s.sizeofT = s.data_ := List.take_of_length_le (by rw [hwf.2.2])
  rw [ht] at hfile
  obtain ⟨h1, h2⟩ := load_saved_file (t := Storage.new s.sizeofT s.path_ s.version_ s.magic_ g)
    hwf hn rfl rfl rfl hfile hopen hread
  rw [h2]
  exact ⟨h1, rfl, rfl⟩

/-- Witness of C1 on the store of the example sketch and an empty medium. -/
theorem save_load_round_trip_witness :
    cfg.WF ∧ cfg.sizeofT ≤ 65535 ∧ (cfg.save emptyMedium).1 = true ∧
      (cfg.save emptyMedium).2.opensSucceed ∧ (cfg.save emptyMedium).2.readsFaithful ∧
      ((Storage.new cfg.sizeofT cfg.path_ cfg.version_ cfg.magic_ none).load
        (cfg.save emptyMedium).2).1 = true ∧
      ((Storage.new cfg.sizeofT cfg.path_ cfg.version_ cfg.magic_ none).load
        (cfg.save emptyMedium).2).2.1.isValid = true ∧
      ((Storage.new cfg.sizeofT cfg.path_ cfg.version_ cfg.magic_ none).load
        (cfg.save emptyMedium).2).2.1.data = cfg.data :=
  ⟨⟨by decide, by decide, rfl⟩, by decide, rfl, rfl, rfl,
    save_load_round_trip cfg emptyMedium none ⟨by decide, by decide, rfl⟩ (by decide) rfl rfl rfl⟩

/-- C2 (checksum rejection). For every file on which `load()` returns true and
every bit position `i` of its payload region (bytes 12 to 12+n-1, so n is at
least 1): on any medium that holds, at the path of a store `t` of the same
payload size, the file with only that bit inverted, `load()` on `t` returns
false and leaves the in-memory payload as it was before the call. -/
theorem load_rejects_flipped_payload_bit (s t : Storage) (m m' : Medium) (bytes : List Byte)
    (i : Nat) (hfile : m.files s.path_ = some bytes) (hload : (s.load m).1 = true)
    (hi : i < 8 * s.sizeofT) (hsize : t.sizeofT = s.sizeofT)
    (hfile' : m'.files t.path_ = some (flipPayloadBit bytes i)) :
    (t.load m').1 = false ∧ (t.load m').2.1.data = t.data := by
  rcases load_cases t m' with ⟨hf, hst⟩ | ⟨-, bytes', hb', hlen', -, -, -, hcrc', -⟩
  · exact ⟨hf, by rw [hst]; rfl⟩
  · exfalso
    rcases load_cases s m with ⟨hf, -⟩ | ⟨-, bytes0, hb0, hlen0, -, -, -, hcrc0, -⟩
    · rw [hload] at hf; exact Bool.noConfusion hf
    · rw [hfile] at hb0
      rw [hfile'] at hb'
      have e0 : bytes0 = bytes := (Option.some.inj hb0).symm
      have e1 : bytes' = flipPayloadBit bytes i := (Option.some.inj hb').symm
      subst e0 e1
      rw [take_header_flip, hsize, ← hcrc0] at hcrc'
      have hj : i / 8 < s.sizeofT := by omega
      have hjl : i / 8 < (payloadOf s.sizeofT bytes0).length := by
        rw [payloadOf_length hlen0]; exact hj
      unfold flipPayloadBit at hcrc'
      rw [payloadOf_set, ← payloadOf_getD hj, List.getD_eq_getElem _ _ hjl] at hcrc'
      exact crc32_set_ne _ _ _ hjl (flipBit_ne _ _) hcrc'

/-- Witness of C2: bit 3 of the payload of the example file is inverted. -/
theorem load_rejects_flipped_payload_bit_witness :
    (mediumWith "/config.bin" cfgFile).files cfg.path_ = some cfgFile ∧
      (cfg.load (mediumWith "/config.bin" cfgFile)).1 = true ∧
      3 < 8 * cfg.sizeofT ∧ cfg.sizeofT = cfg.sizeofT ∧
      (mediumWith "/config.bin" (flipPayloadBit cfgFile 3)).files cfg.path_ =
        some (flipPayloadBit cfgFile 3) ∧
      (cfg.load (mediumWith "/config.bin" (flipPayloadBit cfgFile 3))).1 = false ∧
      (cfg.load (mediumWith "/config.bin" (flipPayloadBit cfgFile 3))).2.1.data = cfg.data :=
  ⟨rfl, rfl, by decide, rfl, rfl,
    load_rejects_flipped_payload_bit cfg cfg (mediumWith "/config.bin" cfgFile)
      (mediumWith "/config.bin" (flipPayloadBit cfgFile 3)) cfgFile 3 rfl rfl (by decide)
      rfl rfl⟩

/-- C3 (header rejection). For every file whose header magic differs from the
store's magic, or whose header version differs from the store's version, or
whose header `dataSize` differs from the static payload size, `load()` returns
false and the in-memory payload is unchanged, whatever the rest of the file
(its checksum included) and whatever the medium does. -/
theorem load_rejects_header_mismatch (s : Storage) (m : Medium) (bytes : List Byte)
    (hfile : m.files s.path_ = some bytes)
    (hbad : (Header.ofBytes (bytes.take sizeofHeader)).magic ≠ s.magic_ ∨
      (Header.ofBytes (bytes.take sizeofHeader)).version ≠ s.version_ ∨
      (Header.ofBytes (bytes.take sizeofHeader)).dataSize ≠ s.sizeofT) :
    (s.load m).1 = false ∧ (s.load m).2.1.data = s.data := by
  rcases load_cases s m with ⟨hf, hst⟩ | ⟨-, bytes0, hb0, -, hmagic, hversion, hsize, -, -⟩
  · exact ⟨hf, by rw [hst]; rfl⟩
  · rw [hfile] at hb0
    have e0 : bytes0 = bytes := (Option.some.inj hb0).symm
    subst e0
    rcases hbad with h | h | h
    · exact absurd hmagic h
    · exact absurd hversion h
    · exact absurd hsize h

/-- Witness of C3: the example file, whose checksum is right, read by a store
of version 2. -/
theorem load_rejects_header_mismatch_witness :
    (mediumWith "/config.bin" cfgFile).files
        (Storage.new sizeofConfig "/config.bin" 2 defaultMagic none).path_ = some cfgFile ∧
      ((Header.ofBytes (cfgFile.take sizeofHeader)).magic ≠ defaultMagic ∨
        (Header.ofBytes (cfgFile.take sizeofHeader)).version ≠ 2 ∨
        (Header.ofBytes (cfgFile.take sizeofHeader)).dataSize ≠ sizeofConfig) ∧
      ((Storage.new sizeofConfig "/config.bin" 2 defaultMagic none).load
        (mediumWith "/config.bin" cfgFile)).1 = false ∧
      ((Storage.new sizeofConfig "/config.bin" 2 defaultMagic none).load
        (mediumWith "/config.bin" cfgFile)).2.1.data =
        (Storage.new sizeofConfig "/config.bin" 2 defaultMagic none).data :=
  ⟨rfl, Or.inr (Or.inl (by decide)),
    load_rejects_header_mismatch (Storage.new sizeofConfig "/config.bin" 2 defaultMagic none)
      (mediumWith "/config.bin" cfgFile) cfgFile rfl (Or.inr (Or.inl (by decide)))⟩

/-- C4 (truncation rejection). For every file whose length is less than 12, or
between 12 and 12+n-1 inclusive (n the static payload size), `load()` returns
false, whatever the bytes of the file and whatever the medium does. -/
theorem load_rejects_truncated (s : Storage) (m : Medium) (bytes : List Byte)
    (hfile : m.files s.path_ = some bytes)
    (hshort : bytes.length < 12 ∨ (12 ≤ bytes.length ∧ bytes.length ≤ 12 + s.sizeofT - 1)) :
    (s.load m).1 = false := by
  rcases load_cases s m with ⟨hf, -⟩ | ⟨-, bytes0, hb0, hlen, -⟩
  · exact hf
  · rw [hfile] at hb0
    have e0 : bytes0 = bytes := (Option.some.inj hb0).symm
    subst e0
    have h12 : sizeofHeader = 12 := rfl
    omega

/-- Witness of C4: the example file without its last byte (35 bytes). -/
theorem load_rejects_truncated_witness :
    (mediumWith "/config.bin" cfgFile.dropLast).files cfg.path_ = some cfgFile.dropLast ∧
      (cfgFile.dropLast.length < 12 ∨
        (12 ≤ cfgFile.dropLast.length ∧ cfgFile.dropLast.length ≤ 12 + cfg.sizeofT - 1)) ∧
      (cfg.load (mediumWith "/config.bin" cfgFile.dropLast)).1 = false :=
  ⟨rfl, Or.inr (by decide),
    load_rejects_truncated cfg (mediumWith "/config.bin" cfgFile.dropLast) cfgFile.dropLast rfl
      (Or.inr (by decide))⟩

/-- C5 (atomicity of `load()`). For every store state and every medium state:
if `load()` returns false the in-memory payload is what it was before the call
and `isValid()` is false afterwards; if it returns true, `isValid()` is true
afterwards. -/
theorem load_atomic (s : Storage) (m : Medium) :
    ((s.load m).1 = false →
      (s.load m).2.1.data = s.data ∧ (s.load m).2.1.isValid = false) ∧
    ((s.load m).1 = true → (s.load m).2.1.isValid = true) := by
  rcases load_cases s m with ⟨hf, hst⟩ | ⟨ht, bytes0, -, -, -, -, -, -, hst⟩
  · refine ⟨fun _ => by rw [hst]; exact ⟨rfl, rfl⟩, fun h => ?_⟩
    rw [hf] at h; exact Bool.noConfusion h
  · refine ⟨fun h => ?_, fun _ => by rw [hst]; rfl⟩
    rw [ht] at h; exact Bool.noConfusion h

/-- Witness of C5: a failed load (missing file) of a store that holds valid
data keeps the data and clears the flag; a successful load sets the flag. -/
theorem load_atomic_witness :
    (({ cfg with valid_ := true }.load emptyMedium).1 = false ∧
      ({ cfg with valid_ := true }.load emptyMedium).2.1.data = cfg.data ∧
      ({ cfg with valid_ := true }.load emptyMedium).2.1.isValid = false) ∧
    ((cfg.load (mediumWith "/config.bin" cfgFile)).1 = true ∧
      (cfg.load (mediumWith "/config.bin" cfgFile)).2.1.isValid = true) :=
  ⟨⟨rfl, (load_atomic { cfg with valid_ := true } emptyMedium).1 rfl⟩,
    ⟨rfl, (load_atomic cfg (mediumWith "/config.bin" cfgFile)).2 rfl⟩⟩

/-- C6, counterexample: the example file followed by one extra byte has 37
bytes, not 12 + 24, and `load()` accepts it. -/
theorem load_accepts_trailing_byte :
    (cfgFile ++ [0]).length ≠ 12 + cfg.sizeofT ∧
      (cfg.load (mediumWith "/config.bin" (cfgFile ++ [0]))).1 = true :=
  ⟨by decide, rfl⟩

/-- C6, amended (file size). For every file shorter than 12 + n bytes `load()`
returns false. A longer file is not rejected for its length: when `load()`
accepts a file, it also accepts that file followed by any extra trailing bytes
(on a medium that opens it and reads without faults), and loads the same
payload. -/
theorem load_file_length (s : Storage) (m m' : Medium) (bytes extra : List Byte)
    (hfile : m.files s.path_ = some bytes) :
    (bytes.length < 12 + s.sizeofT → (s.load m).1 = false) ∧
    ((s.load m).1 = true → m'.files s.path_ = some (bytes ++ extra) →
      m'.opensSucceed → m'.readsFaithful →
      (s.load m').1 = true ∧ (s.load m').2.1.data = (s.load m).2.1.data) := by
  have h12 : sizeofHeader = 12 := rfl
  rcases load_cases s m with ⟨hf, -⟩ | ⟨ht, bytes0, hb0, hlen, hmagic, hversion, hsize, hcrc, hst⟩
  · refine ⟨fun _ => hf, fun h => ?_⟩
    rw [hf] at h; exact Bool.noConfusion h
  · rw [hfile] at hb0
    have e0 : bytes0 = bytes := (Option.some.inj hb0).symm
    subst e0
    refine ⟨fun h => by omega, fun _ hfile' hopen hread => ?_⟩
    have htake : (bytes0 ++ extra).take sizeofHeader = bytes0.take sizeofHeader :=
      List.take_append_of_le_length (by omega)
    have hpay : payloadOf s.sizeofT (bytes0 ++ extra) = payloadOf s.sizeofT bytes0 := by
      unfold payloadOf
      rw [List.drop_append_of_le_length (by omega), List.take_append_of_le_length]
      rw [List.length_drop]
      omega
    have key := load_of_wellformed s m' (bytes0 ++ extra) hopen hread
      hfile' (by rw [List.length_append]; omega) (by rw [htake]; exact hmagic)
      (by rw [htake]; exact hversion) (by rw [htake]; exact hsize)
      (by rw [htake, hpay]; exact hcrc)
    rw [key, hst, hpay]
    exact ⟨rfl, rfl⟩

/-- Witness of C6 amended: the example file is accepted, and so is the example
file followed by the two bytes 1, 2, with the same payload; the example file
without its last byte is rejected. -/
theorem load_file_length_witness :
    ((mediumWith "/config.bin" cfgFile.dropLast).files cfg.path_ = some cfgFile.dropLast ∧
      cfgFile.dropLast.length < 12 + cfg.sizeofT ∧
      (cfg.load (mediumWith "/config.bin" cfgFile.dropLast)).1 = false) ∧
    ((mediumWith "/config.bin" cfgFile).files cfg.path_ = some cfgFile ∧
      (cfg.load (mediumWith "/config.bin" cfgFile)).1 = true ∧
      (mediumWith "/config.bin" (cfgFile ++ [1, 2])).files cfg.path_ = some (cfgFile ++ [1, 2]) ∧
      (mediumWith "/config.bin" (cfgFile ++ [1, 2])).opensSucceed ∧
      (mediumWith "/config.bin" (cfgFile ++ [1, 2])).readsFaithful ∧
      (cfg.load (mediumWith "/config.bin" (cfgFile ++ [1, 2]))).1 = true ∧
      (cfg.load (mediumWith "/config.bin" (cfgFile ++ [1, 2]))).2.1.data =
        (cfg.load (mediumWith "/config.bin" cfgFile)).2.1.data) :=
  ⟨⟨rfl, by decide,
      (load_file_length cfg (mediumWith "/config.bin" cfgFile.dropLast) emptyMedium
        cfgFile.dropLast [] rfl).1 (by decide)⟩,
    ⟨rfl, rfl, rfl, rfl, rfl,
      (load_file_length cfg (mediumWith "/config.bin" cfgFile)
        (mediumWith "/config.bin" (cfgFile ++ [1, 2])) cfgFile [1, 2] rfl).2 rfl rfl rfl rfl⟩⟩

/-- C7 (on-medium format written by `save()`). For every store with payload
size n at most 65535, on a medium where opening for writing succeeds and writes
are complete, `save()` returns true and the file at the path afterwards has
exactly 12 + n bytes, whatever was stored there before: bytes 0 to 3 are the
magic, bytes 4 and 5 the version, bytes 6 and 7 the number n, bytes 8 to 11
`crc32` of the payload (each little-endian), and the n payload bytes follow at
offset 12. With the default magic 0x31474643 the first four bytes are the
ASCII characters C, F, G, 1. -/
theorem save_file_format (s : Storage) (m : Medium) (hwf : s.WF) (hn : s.sizeofT ≤ 65535)
    (hopen : m.opensSucceed) (hwrite : m.writesComplete) :
    (s.save m).1 = true ∧
    ∃ file, (s.save m).2.files s.path_ = some file ∧
      file.length = 12 + s.sizeofT ∧
      (file.take 4).length = 4 ∧ fromLE (file.take 4) = s.magic_ ∧
      ((file.drop 4).take 2).length = 2 ∧ fromLE ((file.drop 4).take 2) = s.version_ ∧
      ((file.drop 6).take 2).length = 2 ∧ fromLE ((file.drop 6).take 2) = s.sizeofT ∧
      ((file.drop 8).take 4).length = 4 ∧ fromLE ((file.drop 8).take 4) = crc32 s.data ∧
      file.drop 12 = s.data ∧
      (s.magic_ = defaultMagic → file.take 4 = [0x43, 0x46, 0x47, 0x31]) := by
  have hs := save_of_complete hopen hwrite hwf.2.2
  have hhdr := Storage.header_roundtrip hwf hn
  have hlen := Header.toBytes_length s.header
  have h12 : sizeofHeader = 12 := rfl
  rw [hs]
  refine ⟨rfl, s.header.toBytes ++ s.data_, by simp, ?_⟩
  have e4 : (s.header.toBytes ++ s.data_).take 4 = s.header.toBytes.take 4 :=
    List.take_append_of_le_length (by omega)
  have d4 : ((s.header.toBytes ++ s.data_).drop 4).take 2 = (s.header.toBytes.drop 4).take 2 := by
    rw [List.drop_append_of_le_length (by omega), List.take_append_of_le_length]
    rw [List.length_drop]; omega
  have d6 : ((s.header.toBytes ++ s.data_).drop 6).take 2 = (s.header.toBytes.drop 6).take 2 := by
    rw [List.drop_append_of_le_length (by omega), List.take_append_of_le_length]
    rw [List.length_drop]; omega
  have d8 : ((s.header.toBytes ++ s.data_).drop 8).take 4 = (s.header.toBytes.drop 8).take 4 := by
    rw [List.drop_append_of_le_length (by omega), List.take_append_of_le_length]
    rw [List.length_drop]; omega
  have d12 : (s.header.toBytes ++ s.data_).drop 12 = s.data_ :=
    Header.drop_toBytes_append s.header s.data_
  rw [e4, d4, d6, d8, d12]
  have hm : fromLE (s.header.toBytes.take 4) = s.magic_ := congrArg Header.magic hhdr
  have hv : fromLE ((s.header.toBytes.drop 4).take 2) = s.version_ := congrArg Header.version hhdr
  have hd : fromLE ((s.header.toBytes.drop 6).take 2) = s.sizeofT := congrArg Header.dataSize hhdr
  have hc : fromLE ((s.header.toBytes.drop 8).take 4) = crc32 s.data_ := congrArg Header.crc hhdr
  refine ⟨by rw [List.length_append, hlen, hwf.2.2, h12], ?_, hm, ?_, hv, ?_, hd, ?_, hc, rfl, ?_⟩
  · rw [List.length_take]; omega
  · rw [List.length_take, List.length_drop]; omega
  · rw [List.length_take, List.length_drop]; omega
  · rw [List.length_take, List.length_drop]; omega
  · intro hmagic
    have hb : s.header.toBytes.take 4 = toLE 4 s.magic_ := by
      unfold Header.toBytes
      rw [List.append_assoc, List.append_assoc]
      exact List.take_left' (toLE_length 4 _)
    rw [hb, hmagic]
    decide

/-- Witness of C7 on the store of the example sketch, saving over a medium
that already holds other bytes at the path. -/
theorem save_file_format_witness :
    cfg.WF ∧ cfg.sizeofT ≤ 65535 ∧ (mediumWith "/config.bin" [9, 9, 9]).opensSucceed ∧
      (mediumWith "/config.bin" [9, 9, 9]).writesComplete ∧
      (cfg.save (mediumWith "/config.bin" [9, 9, 9])).1 = true ∧
      ∃ file, (cfg.save (mediumWith "/config.bin" [9, 9, 9])).2.files cfg.path_ = some file ∧
        file.length = 12 + cfg.sizeofT ∧
        (file.take 4).length = 4 ∧ fromLE (file.take 4) = cfg.magic_ ∧
        ((file.drop 4).take 2).length = 2 ∧ fromLE ((file.drop 4).take 2) = cfg.version_ ∧
        ((file.drop 6).take 2).length = 2 ∧ fromLE ((file.drop 6).take 2) = cfg.sizeofT ∧
        ((file.drop 8).take 4).length = 4 ∧ fromLE ((file.drop 8).take 4) = crc32 cfg.data ∧
        file.drop 12 = cfg.data ∧
        (cfg.magic_ = defaultMagic → file.take 4 = [0x43, 0x46, 0x47, 0x31]) :=
  ⟨⟨by decide, by decide, rfl⟩, by decide, rfl, rfl,
    save_file_format cfg (mediumWith "/config.bin" [9, 9, 9]) ⟨by decide, by decide, rfl⟩
      (by decide) rfl rfl⟩

/-- C8 (loadOrDefault initialization). For every store with payload size at
most 65535 whose generator fills a payload of the static size, on a medium
that has no file at the store's path and injects no fault (opens succeed,
writes are complete, reads return the stored bytes): `loadOrDefault()` returns
true, `isValid()` is true, the in-memory payload is the defaults generator's
output (all-zero bytes when no generator was supplied), and a following
`load()` by a fresh store with the same path, magic and version returns true
with the same payload. -/
theorem loadOrDefault_initializes (s : Storage) (m : Medium)
    (g : Option (List Byte → List Byte)) (hwf : s.WF) (hn : s.sizeofT ≤ 65535)
    (hgen : s.defaultsOutput.length = s.sizeofT) (hnofile : m.files s.path_ = none)
    (hopen : m.opensSucceed) (hwrite : m.writesComplete) (hread : m.readsFaithful) :
    (s.loadOrDefault m).1 = true ∧ (s.loadOrDefault m).2.1.isValid = true ∧
      (s.loadOrDefault m).2.1.data = s.defaultsOutput ∧
      (s.defaultsFn_ = none ∨ s.defaultsFn_ = some (zeroDefaults s.sizeofT) →
        (s.loadOrDefault m).2.1.data = List.replicate s.sizeofT 0) ∧
      ((Storage.new s.sizeofT s.path_ s.version_ s.magic_ g).load (s.loadOrDefault m).2.2).1
        = true ∧
      ((Storage.new s.sizeofT s.path_ s.version_ s.magic_ g).load
        (s.loadOrDefault m).2.2).2.1.data = (s.loadOrDefault m).2.1.data := by
  have hl := load_no_file hnofile
  have hs := save_of_complete
    (s := { s with valid_ := false, data_ := s.defaultsOutput, defaultsCalls := s.defaultsCalls + 1 })
    (m := { m with openFaults := m.openFaults.tail
                   log := m.log ++ [Op.opened s.path_ Mode.r false] })
    (by show m.openFaults.tail = []; rw [hopen]; rfl) hwrite hgen
  have hlod : s.loadOrDefault m = (true,
      { s with valid_ := true, data_ := s.defaultsOutput, defaultsCalls := s.defaultsCalls + 1 },
      ({ s with valid_ := false, data_ := s.defaultsOutput,
                defaultsCalls := s.defaultsCalls + 1 }.save
        { m with openFaults := m.openFaults.tail
                 log := m.log ++ [Op.opened s.path_ Mode.r false] }).2) := by
    unfold Storage.loadOrDefault
    rw [hl]
    simp only [Storage.resetToDefaults, Bool.false_eq_true, if_false]
    rw [show (match s.defaultsFn_ with
          | some g => g s.data_
          | none => zeroDefaults s.sizeofT s.data_) = s.defaultsOutput from by
        unfold Storage.defaultsOutput zeroDefaults; rfl]
    rw [hs]
  rw [hlod]
  refine ⟨rfl, rfl, rfl, ?_, ?_⟩
  · intro h
    show s.defaultsOutput = _
    unfold Storage.defaultsOutput
    rcases h with h | h
    · rw [h]
    · rw [h]; rfl
  · rw [hs]
    obtain ⟨h1, h2⟩ := load_saved_file
      (s := { s with valid_ := false, data_ := s.defaultsOutput,
                     defaultsCalls := s.defaultsCalls + 1 })
      (t := Storage.new s.sizeofT s.path_ s.version_ s.magic_ g)
      (m := { m with
        files := fun p => if p = s.path_ then some
          (({ s with valid_ := false, data_ := s.defaultsOutput,
                     defaultsCalls := s.defaultsCalls + 1 } : Storage).header.toBytes
            ++ s.defaultsOutput) else m.files p
        openFaults := m.openFaults.tail
        log := m.log ++ [Op.opened s.path_ Mode.r false] ++
          [Op.opened s.path_ Mode.w true, Op.write s.path_ sizeofHeader sizeofHeader,
           Op.write s.path_ s.sizeofT s.sizeofT, Op.flush s.path_, Op.close s.path_] })
      ⟨hwf.1, hwf.2.1, hgen⟩ hn rfl rfl rfl
      (by show (if s.path_ = s.path_ then _ else _) = _; rw [if_pos rfl])
      (by show m.openFaults.tail = []; rw [hopen]; rfl) hread
    exact ⟨h1, by rw [h2]; rfl⟩

/-- Witness of C8: the store of the example sketch on an empty medium. -/
theorem loadOrDefault_initializes_witness :
    cfg.WF ∧ cfg.sizeofT ≤ 65535 ∧ cfg.defaultsOutput.length = cfg.sizeofT ∧
      emptyMedium.files cfg.path_ = none ∧ emptyMedium.opensSucceed ∧
      emptyMedium.writesComplete ∧ emptyMedium.readsFaithful ∧
      (cfg.loadOrDefault emptyMedium).1 = true ∧
      (cfg.loadOrDefault emptyMedium).2.1.isValid = true ∧
      (cfg.loadOrDefault emptyMedium).2.1.data = cfg.defaultsOutput ∧
      (cfg.defaultsFn_ = none ∨ cfg.defaultsFn_ = some (zeroDefaults cfg.sizeofT) →
        (cfg.loadOrDefault emptyMedium).2.1.data = List.replicate cfg.sizeofT 0) ∧
      ((Storage.new cfg.sizeofT cfg.path_ cfg.version_ cfg.magic_ none).load
        (cfg.loadOrDefault emptyMedium).2.2).1 = true ∧
      ((Storage.new cfg.sizeofT cfg.path_ cfg.version_ cfg.magic_ none).load
        (cfg.loadOrDefault emptyMedium).2.2).2.1.data = (cfg.loadOrDefault emptyMedium).2.1.data :=
  ⟨⟨by decide, by decide, rfl⟩, by decide, rfl, rfl, rfl, rfl, rfl,
    loadOrDefault_initializes cfg emptyMedium none ⟨by decide, by decide, rfl⟩ (by decide) rfl
      rfl rfl rfl rfl⟩

/-- C9 (loadOrDefault on a valid file). For every medium whose file at the
store's path is one on which `load()` returns true, `loadOrDefault()` returns
true and is `load()`: same result, same store afterwards (payload and validity
flag), same medium afterwards. The stored files are unchanged, no call it makes
writes to the medium, and the defaults generator is not invoked. -/
theorem loadOrDefault_on_valid_file (s : Storage) (m : Medium) (h : (s.load m).1 = true) :
    (s.loadOrDefault m).1 = true ∧ s.loadOrDefault m = s.load m ∧
      (s.loadOrDefault m).2.2.files = m.files ∧
      (∃ ops, (s.loadOrDefault m).2.2.log = m.log ++ ops ∧ ∀ op ∈ ops, op.mutates = false) ∧
      (s.loadOrDefault m).2.1.defaultsCalls = s.defaultsCalls := by
  have he := loadOrDefault_of_load_true h
  obtain ⟨hfiles, -, hlog⟩ := load_medium s m
  rw [he]
  refine ⟨h, rfl, hfiles, hlog, ?_⟩
  rcases load_cases s m with ⟨-, hst⟩ | ⟨-, bytes, -, -, -, -, -, -, hst⟩
  · rw [hst]
  · rw [hst]

/-- Witness of C9: the store of the example sketch on a medium holding the
example file. -/
theorem loadOrDefault_on_valid_file_witness :
    (cfg.load (mediumWith "/config.bin" cfgFile)).1 = true ∧
      (cfg.loadOrDefault (mediumWith "/config.bin" cfgFile)).1 = true ∧
      cfg.loadOrDefault (mediumWith "/config.bin" cfgFile) =
        cfg.load (mediumWith "/config.bin" cfgFile) ∧
      (cfg.loadOrDefault (mediumWith "/config.bin" cfgFile)).2.2.files =
        (mediumWith "/config.bin" cfgFile).files ∧
      (∃ ops, (cfg.loadOrDefault (mediumWith "/config.bin" cfgFile)).2.2.log =
        (mediumWith "/config.bin" cfgFile).log ++ ops ∧ ∀ op ∈ ops, op.mutates = false) ∧
      (cfg.loadOrDefault (mediumWith "/config.bin" cfgFile)).2.1.defaultsCalls =
        cfg.defaultsCalls :=
  ⟨rfl, loadOrDefault_on_valid_file cfg (mediumWith "/config.bin" cfgFile) rfl⟩

/-- C10 (reset semantics). For every store and medium state:
`resetToDefaults(false)` sets the in-memory payload to the defaults generator's
output (one invocation), sets `isValid()` false and leaves the medium exactly
as it was, without any call to it; `resetToDefaults(true)` sets the payload to
the same defaults, does to the medium what one `save()` of the store holding
them does, and leaves `isValid()` equal to the result of that `save()`. -/
theorem resetToDefaults_semantics (s : Storage) (m : Medium) :
    (s.resetToDefaults m false).1.data = s.defaultsOutput ∧
      (s.resetToDefaults m false).1.isValid = false ∧
      (s.resetToDefaults m false).1.defaultsCalls = s.defaultsCalls + 1 ∧
      (s.resetToDefaults m false).2 = m ∧
      (s.resetToDefaults m true).1.data = s.defaultsOutput ∧
      (s.resetToDefaults m true).1.defaultsCalls = s.defaultsCalls + 1 ∧
      (s.resetToDefaults m true).2 = ({ s with data_ := s.defaultsOutput }.save m).2 ∧
      (s.resetToDefaults m true).1.isValid = ({ s with data_ := s.defaultsOutput }.save m).1 := by
  have hd : (match s.defaultsFn_ with
      | some g => g s.data_
      | none => zeroDefaults s.sizeofT s.data_) = s.defaultsOutput := by
    unfold Storage.defaultsOutput zeroDefaults; rfl
  have hsave : ∀ v c, ({ s with data_ := s.defaultsOutput, valid_ := v, defaultsCalls := c } :
      Storage).save m = ({ s with data_ := s.defaultsOutput } : Storage).save m := fun _ _ => rfl
  unfold Storage.resetToDefaults
  simp only [hd, Bool.false_eq_true, if_false, if_true, hsave]
  refine ⟨rfl, rfl, trivial, trivial, ?_⟩
  cases hr : ({ s with data_ := s.defaultsOutput } : Storage).save m with
  | mk ok m1 =>
    cases ok
    · exact ⟨rfl, rfl, rfl, rfl⟩
    · exact ⟨rfl, rfl, rfl, rfl⟩

/-- C12 (`save()` is read-only on the store). For every store state and every
medium behaviour (open failure, short header write, short payload write,
success), the in-memory payload, the validity flag, magic, version and path
after `save()` are what they were before the call: the store is unchanged. -/
theorem save_keeps_store (s : Storage) (m : Medium) :
    (s.callSave m).2.1 = s ∧ (s.callSave m).2.1.data = s.data ∧
      (s.callSave m).2.1.isValid = s.isValid ∧ (s.callSave m).2.1.magic_ = s.magic_ ∧
      (s.callSave m).2.1.version_ = s.version_ ∧ (s.callSave m).2.1.path_ = s.path_ ∧
      (s.callSave m).1 = (s.save m).1 ∧ (s.callSave m).2.2 = (s.save m).2 :=
  ⟨rfl, rfl, rfl, rfl, rfl, rfl, rfl, rfl⟩

/-- C13, counterexample. On a medium that accepts only 5 bytes of the header,
`save()` of the example store makes a single write call (12 bytes requested, 5
written), then flushes and closes: no payload write is issued. -/
theorem save_skips_payload_after_short_header :
    ({ emptyMedium with writeCaps := [5] } : Medium).opensSucceed ∧
      (cfg.save { emptyMedium with writeCaps := [5] }).1 = false ∧
      (cfg.save { emptyMedium with writeCaps := [5] }).2.log =
        [Op.opened "/config.bin" Mode.w true, Op.write "/config.bin" 12 5,
         Op.flush "/config.bin", Op.close "/config.bin"] :=
  ⟨rfl, rfl, rfl⟩

/-- C13, amended (short header write). For every store and every medium on
which opening for writing succeeds but the header write is short (`c` bytes
written, fewer than 12), `save()` issues no payload write: after the header
write it flushes, closes and returns false, and the file holds the `c` header
bytes that were written. -/
theorem save_short_header (s : Storage) (m : Medium) (c : Nat) (cs : List Nat)
    (hopen : ((m.fsOpen s.path_ Mode.w).1).isSome = true)
    (hcaps : m.writeCaps = c :: cs) (hshort : c < 12) :
    (s.save m).1 = false ∧
      (s.save m).2.log = m.log ++ [Op.opened s.path_ Mode.w true,
        Op.write s.path_ 12 c, Op.flush s.path_, Op.close s.path_] ∧
      (s.save m).2.files s.path_ = some (s.header.toBytes.take c) ∧
      (s.save m).2.writeCaps = cs := by
  have hlen := Header.toBytes_length s.header
  have h12 : sizeofHeader = 12 := rfl
  have hmin : min c 12 = c := by omega
  have hne : ¬ c = 12 := by omega
  have hok : (!(m.openFaults.head?.getD false)) = true := by
    unfold Medium.fsOpen at hopen
    simp only at hopen
    cases h : (!(m.openFaults.head?.getD false))
    · rw [h] at hopen; exact Bool.noConfusion hopen
    · rfl
  unfold Storage.save
  simp only [Medium.fsOpen, File.write, File.flush, File.close, hok, hcaps, hmin, if_true,
    hne, ne_eq, not_false_eq_true, List.tail_cons, hlen, h12, List.append_assoc,
    List.singleton_append, Option.getD_some, List.nil_append]
  exact ⟨trivial, rfl, trivial, trivial⟩

/-- Witness of C13 amended: the example store, header write cut after 5 bytes. -/
theorem save_short_header_witness :
    (((({ emptyMedium with writeCaps := [5] } : Medium).fsOpen cfg.path_ Mode.w).1).isSome
        = true) ∧
      ({ emptyMedium with writeCaps := [5] } : Medium).writeCaps = 5 :: [] ∧ 5 < 12 ∧
      (cfg.save { emptyMedium with writeCaps := [5] }).1 = false ∧
      (cfg.save { emptyMedium with writeCaps := [5] }).2.log =
        ({ emptyMedium with writeCaps := [5] } : Medium).log ++
          [Op.opened cfg.path_ Mode.w true, Op.write cfg.path_ 12 5, Op.flush cfg.path_,
           Op.close cfg.path_] ∧
      (cfg.save { emptyMedium with writeCaps := [5] }).2.files cfg.path_ =
        some (cfg.header.toBytes.take 5) ∧
      (cfg.save { emptyMedium with writeCaps := [5] }).2.writeCaps = [] :=
  ⟨rfl, rfl, by decide,
    save_short_header cfg { emptyMedium with writeCaps := [5] } 5 [] rfl rfl (by decide)⟩

/-- C15 (construction). For every medium state, path, version, magic and
optional defaults generator, constructing a store makes no call on the medium
(the medium is unchanged, its log included), leaves `isValid()` false, and
leaves the in-memory payload equal to the generator's output on a
zero-initialised payload; when no generator is supplied the payload is all-zero
bytes. The path, version and magic are stored as given. -/
theorem construct_semantics (m : Medium) (n : Nat) (path : String) (version magic : Nat)
    (g : List Byte → List Byte) :
    (Storage.construct m n path version magic (some g)).2 = m ∧
      (Storage.construct m n path version magic none).2 = m ∧
      (Storage.construct m n path version magic (some g)).1.isValid = false ∧
      (Storage.construct m n path version magic none).1.isValid = false ∧
      (Storage.construct m n path version magic (some g)).1.data = g (List.replicate n 0) ∧
      (Storage.construct m n path version magic none).1.data = List.replicate n 0 ∧
      (Storage.construct m n path version magic (some g)).1.path_ = path ∧
      (Storage.construct m n path version magic (some g)).1.version_ = version ∧
      (Storage.construct m n path version magic (some g)).1.magic_ = magic ∧
      (Storage.construct m n path version magic (some g)).1.sizeofT = n :=
  ⟨rfl, rfl, rfl, rfl, rfl, rfl, rfl, rfl, rfl, rfl⟩

theorem fsOpen_none {m : Medium} {path : String} {mode : Mode} {m1 : Medium}
    (h : m.fsOpen path mode = (none, m1)) :
    m1.log = m.log ++ [Op.opened path mode false] := by
  unfold Medium.fsOpen at h
  simp only [Prod.mk.injEq] at h
  obtain ⟨h1, h2⟩ := h
  subst h2
  split at h1
  · exact Option.noConfusion h1
  · rename_i hok
    simp only [Bool.not_eq_true] at hok
    simp only [hok]

/-- C16 (file handles never leak). For every store and every medium behaviour,
`load()` and `save()` each make exactly one `open` call, hence obtain at most
one handle, and the calls each of them makes are well bracketed: every call on
a handle is made while it is held, and no handle is held when the call returns,
on every exit path. In `save()` the `close` comes directly after a `flush`. -/
theorem handles_never_leak (s : Storage) (m : Medium) :
    (∃ ops, (s.load m).2.2.log = m.log ++ ops ∧ ops.countP Op.isOpen = 1 ∧
      replayHandles ops false = some false) ∧
    (∃ ops, (s.save m).2.log = m.log ++ ops ∧ ops.countP Op.isOpen = 1 ∧
      replayHandles ops false = some false ∧ closesAfterFlush ops none = true) := by
  constructor
  · unfold Storage.load
    dsimp only
    split
    · rename_i r m1 hopen
      exact ⟨_, fsOpen_none hopen, rfl, rfl⟩
    · rename_i r f m1 hopen
      obtain ⟨-, -, -, -, -, -, h3⟩ := fsOpen_r_some hopen
      simp only [File.size, File.read, File.close]
      repeat' split
      all_goals
        simp only [h3, List.append_assoc]
        exact ⟨_, rfl, rfl, rfl⟩
  · unfold Storage.save
    dsimp only
    split
    · rename_i r m1 hopen
      exact ⟨_, fsOpen_none hopen, rfl, rfl, rfl⟩
    · rename_i r f m1 hopen
      obtain ⟨-, -, -, -, -, h3⟩ := fsOpen_w_some hopen
      simp only [File.write, File.flush, File.close]
      repeat' split
      all_goals
        simp only [h3, List.append_assoc]
        refine ⟨_, rfl, rfl, rfl, ?_⟩
        simp only [List.singleton_append, closesAfterFlush, decide_True, Bool.and_self]

/-! ## The CRC register is linear -/

theorem crcBit_xor (x y : Nat) : crcBit (x ^^^ y) = crcBit x ^^^ crcBit y := by
  unfold crcBit
  have hm := @Nat.xor_mod_two_eq x y
  have hd := @Nat.xor_div_two x y
  by_cases hx : x % 2 = 1 <;> by_cases hy : y % 2 = 1
  · have h : ¬ (x ^^^ y) % 2 = 1 := by omega
    rw [if_pos hx, if_pos hy, if_neg h, hd]
    rw [Nat.xor_assoc, ← Nat.xor_assoc 0xEDB88320, Nat.xor_comm 0xEDB88320 (y / 2),
      Nat.xor_assoc (y / 2), Nat.xor_self, Nat.xor_zero]
  · have h : (x ^^^ y) % 2 = 1 := by omega
    rw [if_pos hx, if_neg hy, if_pos h, hd]
    rw [Nat.xor_assoc, Nat.xor_assoc, Nat.xor_comm (y / 2)]
  · have h : (x ^^^ y) % 2 = 1 := by omega
    rw [if_neg hx, if_pos hy, if_pos h, hd, Nat.xor_assoc]
  · have h : ¬ (x ^^^ y) % 2 = 1 := by omega
    rw [if_neg hx, if_neg hy, if_neg h, hd]

theorem crcBit_iterate_xor (k : Nat) (x y : Nat) :
    crcBit^[k] (x ^^^ y) = crcBit^[k] x ^^^ crcBit^[k] y := by
  induction k generalizing x y with
  | zero => rfl
  | succ k ih => simp only [Function.iterate_succ_apply, crcBit_xor, ih]

theorem crcBit_double (h : Nat) : crcBit (2 * h) = h := by
  unfold crcBit
  rw [if_neg (by omega)]
  omega

theorem crcBit_iterate_shift (k h : Nat) : crcBit^[k] (2 ^ k * h) = h := by
  induction k generalizing h with
  | zero => simp
  | succ k ih =>
    rw [Function.iterate_succ_apply, Nat.pow_succ, Nat.mul_comm (2 ^ k) 2, Nat.mul_assoc,
      crcBit_double, ih]

theorem add_shift_eq_xor {a : Nat} (k h : Nat) (ha : a < 2 ^ k) :
    a + 2 ^ k * h = a ^^^ (2 ^ k * h) := by
  apply Nat.eq_of_testBit_eq
  intro j
  rw [Nat.add_comm, Nat.testBit_mul_pow_two_add h ha j, Nat.testBit_xor,
    Nat.testBit_mul_pow_two]
  by_cases hj : j < k
  · have : ¬ j ≥ k := by omega
    simp [hj, this]
  · have hge : j ≥ k := by omega
    have hlt : a < 2 ^ j := Nat.lt_of_lt_of_le ha (Nat.pow_le_pow_right (by decide) hge)
    simp [hj, hge, Nat.testBit_lt_two_pow hlt]

/-- Eight steps of the register on `a + 256 * h` with `a` a byte: the low byte
goes through the steps, the rest is shifted down. -/
theorem crcBit_eight_split (a h : Nat) (ha : a < 256) :
    crcBit^[8] (a + 256 * h) = crcBit^[8] a ^^^ h := by
  have e := add_shift_eq_xor 8 h (show a < 2 ^ 8 from ha)
  have e8 : (2 : Nat) ^ 8 = 256 := by decide
  rw [e8] at e
  rw [e, crcBit_iterate_xor]
  have := crcBit_iterate_shift 8 h
  rw [e8] at this
  rw [this]

/-! ## The table-driven form -/

theorem crcTable_eq : crcTable = (List.range 256).map (crcBit^[8]) := by decide

theorem crcTable_getD (i : Nat) (h : i < 256) : crcTable.getD i 0 = crcBit^[8] i := by
  rw [crcTable_eq, List.getD_eq_getElem?_getD, List.getElem?_map, List.getElem?_range h]
  rfl

theorem crcTableStep_eq (c : Nat) (b : Byte) : crcTableStep c b = crcByte c b := by
  unfold crcTableStep crcByte
  have hb : b.val < 256 := b.isLt
  have hand : (c ^^^ b.val) &&& 0xFF = (c ^^^ b.val) % 256 :=
    Nat.and_pow_two_sub_one_eq_mod _ 8
  have hlt : (c ^^^ b.val) % 256 < 256 := Nat.mod_lt _ (by decide)
  have hdiv : (c ^^^ b.val) / 256 = c >>> 8 := by
    rw [Nat.shiftRight_eq_div_pow]
    have e8 : (2 : Nat) ^ 8 = 256 := by decide
    rw [e8]
    have h1 : ∀ x y : Nat, (x ^^^ y) / 256 = x / 256 ^^^ y / 256 := by
      intro x y
      have e : (256 : Nat) = 2 * 2 * 2 * 2 * 2 * 2 * 2 * 2 := by decide
      rw [e]
      simp only [← Nat.div_div_eq_div_mul, Nat.xor_div_two]
    rw [h1, Nat.div_eq_of_lt hb, Nat.xor_zero]
  rw [hand, crcTable_getD _ hlt, ← hdiv]
  conv_rhs => rw [← Nat.mod_add_div (c ^^^ b.val) 256]
  rw [crcBit_eight_split _ _ hlt]

/-- C14 (`crc32` is the standard CRC-32). For every byte sequence, `crc32`
equals the byte-at-a-time table-driven CRC-32 (standard table for polynomial
`0xEDB88320`, initial register `0xFFFFFFFF`, step
`crc := table[(crc xor b) and 0xFF] xor (crc >> 8)`, final one's complement);
`crc32` of the empty sequence is 0 and `crc32` of the ASCII bytes of
"123456789" is `0xCBF43926`. -/
theorem crc32_is_standard (data : List Byte) :
    crc32 data = crc32Reference data ∧ crc32 [] = 0x00000000 ∧
      crc32 [0x31, 0x32, 0x33, 0x34, 0x35, 0x36, 0x37, 0x38, 0x39] = 0xCBF43926 := by
  refine ⟨?_, by decide, by decide⟩
  unfold crc32 crc32Reference
  have hstep : crcTableStep = crcByte := by
    funext c b
    exact crcTableStep_eq c b
  rw [hstep]

/-! ## The header as four little-endian fields -/

theorem Header.ofBytes_take (bytes : List Byte) :
    Header.ofBytes (bytes.take sizeofHeader) =
      { magic := fromLE (bytes.take 4)
        version := fromLE ((bytes.drop 4).take 2)
        dataSize := fromLE ((bytes.drop 6).take 2)
        crc := fromLE ((bytes.drop 8).take 4) } := by
  unfold Header.ofBytes sizeofHeader
  simp only [List.take_take, List.drop_take, Nat.min_def]
  rfl

theorem load_true_open {s : Storage} {m : Medium} (h : (s.load m).1 = true) :
    ((m.fsOpen s.path_ Mode.r).1).isSome = true := by
  unfold Storage.load at h
  dsimp only at h
  split at h
  · exact Bool.noConfusion h
  · rename_i r f m1 hopen
    rw [hopen]
    rfl

/-- Acceptance by `load` when the open call succeeds and reads are not cut
short. -/
theorem load_of_openable (s : Storage) (m : Medium) (bytes : List Byte)
    (hopen : ((m.fsOpen s.path_ Mode.r).1).isSome = true) (hcaps : m.readCaps = [])
    (hfile : m.files s.path_ = some bytes)
    (hlen : sizeofHeader + s.sizeofT ≤ bytes.length)
    (hmagic : (Header.ofBytes (bytes.take sizeofHeader)).magic = s.magic_)
    (hversion : (Header.ofBytes (bytes.take sizeofHeader)).version = s.version_)
    (hsize : (Header.ofBytes (bytes.take sizeofHeader)).dataSize = s.sizeofT)
    (hcrc : crc32 (payloadOf s.sizeofT bytes) = (Header.ofBytes (bytes.take sizeofHeader)).crc) :
    (s.load m).1 = true ∧
      (s.load m).2.1 = { s with valid_ := true, data_ := payloadOf s.sizeofT bytes } := by
  have h12 : sizeofHeader = 12 := rfl
  have hl1 : (List.take sizeofHeader bytes).length = sizeofHeader := by
    rw [List.length_take]; omega
  have hl2 : (List.take s.sizeofT (List.drop sizeofHeader bytes)).length = s.sizeofT := by
    rw [List.length_take, List.length_drop]; omega
  have hok : (!(m.openFaults.head?.getD false)) = true := by
    unfold Medium.fsOpen at hopen
    simp only [hfile, Option.isSome_some, Bool.and_true] at hopen
    cases h : (!(m.openFaults.head?.getD false))
    · rw [h] at hopen; exact Bool.noConfusion hopen
    · rfl
  have hnlt : ¬ bytes.length < sizeofHeader := by omega
  unfold payloadOf at hcrc ⊢
  unfold Storage.load
  simp only [Medium.fsOpen, File.size, File.read, File.close, hok, hcaps, hfile,
    Option.getD_some, Option.isSome_some, Bool.and_self, if_true, List.drop_zero, hl1,
    Nat.zero_add, hnlt, hmagic, hversion, hsize, hl2, hcrc, ne_eq,
    not_true_eq_false, or_self, if_false, List.tail_nil, and_self, List.take_take, Nat.min_self]

/-- C17 (exact acceptance condition of `load()`). On a medium whose reads
return the stored bytes, `load()` returns true if and only if the file at the
path can be opened, has at least 12 + n bytes, its bytes 0 to 3 decode
(little-endian) to the store's magic, bytes 4 and 5 to the version, bytes 6
and 7 to n, and bytes 8 to 11 to `crc32` of bytes 12 to 12+n-1; and in that
case the in-memory payload afterwards is bytes 12 to 12+n-1 of the file. -/
theorem load_accepts_iff (s : Storage) (m : Medium) (hread : m.readsFaithful) :
    ((s.load m).1 = true ↔
      ∃ bytes, m.files s.path_ = some bytes ∧ ((m.fsOpen s.path_ Mode.r).1).isSome = true ∧
        12 + s.sizeofT ≤ bytes.length ∧ fromLE (bytes.take 4) = s.magic_ ∧
        fromLE ((bytes.drop 4).take 2) = s.version_ ∧
        fromLE ((bytes.drop 6).take 2) = s.sizeofT ∧
        fromLE ((bytes.drop 8).take 4) = crc32 ((bytes.drop 12).take s.sizeofT)) ∧
    ((s.load m).1 = true → ∀ bytes, m.files s.path_ = some bytes →
      (s.load m).2.1.data = (bytes.drop 12).take s.sizeofT) := by
  have h12 : sizeofHeader = 12 := rfl
  refine ⟨⟨fun h => ?_, fun h => ?_⟩, fun h bytes hb => ?_⟩
  · rcases load_cases s m with ⟨hf, -⟩ | ⟨-, bytes, hb, hlen, hmagic, hversion, hsize, hcrc, -⟩
    · rw [h] at hf; exact Bool.noConfusion hf
    · rw [Header.ofBytes_take] at hmagic hversion hsize hcrc
      exact ⟨bytes, hb, load_true_open h, by omega, hmagic, hversion, hsize, hcrc.symm⟩
  · obtain ⟨bytes, hb, hopen, hlen, hmagic, hversion, hsize, hcrc⟩ := h
    exact (load_of_openable s m bytes hopen hread hb (by omega)
      (by rw [Header.ofBytes_take]; exact hmagic) (by rw [Header.ofBytes_take]; exact hversion)
      (by rw [Header.ofBytes_take]; exact hsize)
      (by rw [Header.ofBytes_take]; exact hcrc.symm)).1
  · rcases load_cases s m with ⟨hf, -⟩ | ⟨-, bytes0, hb0, -, -, -, -, -, hst⟩
    · rw [h] at hf; exact Bool.noConfusion hf
    · rw [hb] at hb0
      have e : bytes0 = bytes := (Option.some.inj hb0).symm
      subst e
      rw [hst]
      rfl

/-- Witness of C17: the example store and the example file. -/
theorem load_accepts_iff_witness :
    (mediumWith "/config.bin" cfgFile).readsFaithful ∧
      (cfg.load (mediumWith "/config.bin" cfgFile)).1 = true ∧
      (cfg.load (mediumWith "/config.bin" cfgFile)).2.1.data = (cfgFile.drop 12).take cfg.sizeofT ∧
      ((cfg.load (mediumWith "/config.bin" cfgFile.dropLast)).1 = true ↔
        ∃ bytes, (mediumWith "/config.bin" cfgFile.dropLast).files cfg.path_ = some bytes ∧
          (((mediumWith "/config.bin" cfgFile.dropLast).fsOpen cfg.path_ Mode.r).1).isSome
            = true ∧
          12 + cfg.sizeofT ≤ bytes.length ∧ fromLE (bytes.take 4) = cfg.magic_ ∧
          fromLE ((bytes.drop 4).take 2) = cfg.version_ ∧
          fromLE ((bytes.drop 6).take 2) = cfg.sizeofT ∧
          fromLE ((bytes.drop 8).take 4) = crc32 ((bytes.drop 12).take cfg.sizeofT)) :=
  ⟨rfl, rfl, (load_accepts_iff cfg (mediumWith "/config.bin" cfgFile) rfl).2 rfl cfgFile rfl,
    (load_accepts_iff cfg (mediumWith "/config.bin" cfgFile.dropLast) rfl).1⟩

theorem fromLE_lt (l : List Byte) : fromLE l < 256 ^ l.length := by
  induction l with
  | nil => simp [fromLE]
  | cons b l ih =>
    have hb : b.val < 256 := b.isLt
    simp only [fromLE, List.length_cons, Nat.pow_succ]
    omega

theorem Header.dataSize_lt (bs : List Byte) : (Header.ofBytes bs).dataSize < 65536 := by
  unfold Header.ofBytes
  have h := fromLE_lt ((bs.drop 6).take 2)
  have hl : ((bs.drop 6).take 2).length ≤ 2 := by
    rw [List.length_take]; omega
  have hp : 256 ^ ((bs.drop 6).take 2).length ≤ 256 ^ 2 :=
    Nat.pow_le_pow_right (by decide) hl
  have e : (256 : Nat) ^ 2 = 65536 := by decide
  show fromLE ((bs.drop 6).take 2) < 65536
  omega

theorem load_false_of_big (t : Storage) (k : Medium) (hbig : 65536 ≤ t.sizeofT) :
    (t.load k).1 = false := by
  rcases load_cases t k with ⟨hf, -⟩ | ⟨-, bytes, -, -, -, -, hsize, -, -⟩
  · exact hf
  · have := Header.dataSize_lt (bytes.take sizeofHeader)
    omega

/-- C18 (16-bit `dataSize` limit). For a payload type of 65536 bytes or more:
`load()` returns false on every file and medium, since no header `dataSize`
equals n; on a medium where opens succeed and writes are complete `save()`
still returns true and stores `dataSize = n mod 65536`, which differs from n;
and `load()` on a fresh store rejects the file just written, so the round trip
fails. -/
theorem dataSize_limit (s : Storage) (m : Medium) (g : Option (List Byte → List Byte))
    (hbig : 65536 ≤ s.sizeofT) (hwf : s.WF) (hopen : m.opensSucceed)
    (hwrite : m.writesComplete) :
    (∀ (t : Storage) (k : Medium), t.sizeofT = s.sizeofT → (t.load k).1 = false) ∧
      (s.save m).1 = true ∧
      (∃ file, (s.save m).2.files s.path_ = some file ∧
        fromLE ((file.drop 6).take 2) = s.sizeofT % 65536 ∧
        fromLE ((file.drop 6).take 2) ≠ s.sizeofT) ∧
      ((Storage.new s.sizeofT s.path_ s.version_ s.magic_ g).load (s.save m).2).1 = false := by
  have hs := save_of_complete hopen hwrite hwf.2.2
  refine ⟨fun t k ht => load_false_of_big t k (by omega), by rw [hs], ?_,
    load_false_of_big _ _ hbig⟩
  rw [hs]
  refine ⟨s.header.toBytes ++ s.data_, by simp, ?_⟩
  have hdec : Header.ofBytes ((s.header.toBytes ++ s.data_).take sizeofHeader) = s.header := by
    rw [Header.take_toBytes_append]
    exact Header.ofBytes_toBytes s.header hwf.1 hwf.2.1 (Nat.mod_lt _ (by decide)) (crc32_lt _)
  rw [Header.ofBytes_take] at hdec
  have hd : fromLE (((s.header.toBytes ++ s.data_).drop 6).take 2) = s.sizeofT % 65536 :=
    congrArg Header.dataSize hdec
  refine ⟨hd, ?_⟩
  rw [hd]
  have := Nat.mod_lt s.sizeofT (show 0 < 65536 by decide)
  omega

/-- Witness of C18: a store for a payload of 65536 bytes on an empty medium. -/
theorem dataSize_limit_witness :
    65536 ≤ bigStore.sizeofT ∧ bigStore.WF ∧ emptyMedium.opensSucceed ∧
      emptyMedium.writesComplete ∧
      (∀ (t : Storage) (k : Medium), t.sizeofT = bigStore.sizeofT → (t.load k).1 = false) ∧
      (bigStore.save emptyMedium).1 = true ∧
      (∃ file, (bigStore.save emptyMedium).2.files bigStore.path_ = some file ∧
        fromLE ((file.drop 6).take 2) = bigStore.sizeofT % 65536 ∧
        fromLE ((file.drop 6).take 2) ≠ bigStore.sizeofT) ∧
      ((Storage.new bigStore.sizeofT bigStore.path_ bigStore.version_ bigStore.magic_ none).load
        (bigStore.save emptyMedium).2).1 = false :=
  ⟨Nat.le_refl _, ⟨by decide, by decide, List.length_replicate _ _⟩, rfl, rfl,
    dataSize_limit bigStore emptyMedium none (Nat.le_refl _)
      ⟨by decide, by decide, List.length_replicate _ _⟩ rfl rfl⟩

theorem toLE_fromLE (l : List Byte) : toLE l.length (fromLE l) = l := by
  induction l with
  | nil => rfl
  | cons b l ih =>
    have hb : b.val < 256 := b.isLt
    have h1 : (b.val + 256 * fromLE l) % 256 = b.val := by omega
    have h2 : (b.val + 256 * fromLE l) / 256 = fromLE l := by omega
    simp only [List.length_cons, fromLE, toLE, h1, h2, ih]

theorem Header.toBytes_ofBytes (bs : List Byte) (h : bs.length = sizeofHeader) :
    (Header.ofBytes bs).toBytes = bs := by
  have h12 : sizeofHeader = 12 := rfl
  have l1 : (bs.take 4).length = 4 := by rw [List.length_take]; omega
  have l2 : ((bs.drop 4).take 2).length = 2 := by
    rw [List.length_take, List.length_drop]; omega
  have l3 : ((bs.drop 6).take 2).length = 2 := by
    rw [List.length_take, List.length_drop]; omega
  have l4 : ((bs.drop 8).take 4).length = 4 := by
    rw [List.length_take, List.length_drop]; omega
  have e1 := toLE_fromLE (bs.take 4)
  have e2 := toLE_fromLE ((bs.drop 4).take 2)
  have e3 := toLE_fromLE ((bs.drop 6).take 2)
  have e4 := toLE_fromLE ((bs.drop 8).take 4)
  rw [l1] at e1
  rw [l2] at e2
  rw [l3] at e3
  rw [l4] at e4
  unfold Header.toBytes Header.ofBytes
  simp only [e1, e2, e3, e4]
  have d8 : (bs.drop 8).take 4 = bs.drop 8 :=
    List.take_of_length_le (by rw [List.length_drop]; omega)
  have s1 : bs.drop 6 = (bs.drop 6).take 2 ++ bs.drop 8 := by
    conv_lhs => rw [← List.take_append_drop 2 (bs.drop 6), List.drop_drop]
  have s2 : bs.drop 4 = (bs.drop 4).take 2 ++ bs.drop 6 := by
    conv_lhs => rw [← List.take_append_drop 2 (bs.drop 4), List.drop_drop]
  have s3 : bs = bs.take 4 ++ bs.drop 4 := (List.take_append_drop 4 bs).symm
  rw [d8]
  conv_rhs => rw [s3, s2, s1]
  simp only [List.append_assoc]

/-- C19 (load-then-save). For every file on which `load()` returns true, an
immediately following `save()` on the same store, on a medium that opens the
file for writing and whose writes are complete, returns true and leaves at the
path exactly the first 12 + n bytes of the file: the file itself, byte for
byte, when it had exactly 12 + n bytes. -/
theorem load_then_save (s : Storage) (m : Medium) (bytes : List Byte)
    (hfile : m.files s.path_ = some bytes) (hload : (s.load m).1 = true)
    (hopen : (s.load m).2.2.opensSucceed) (hwrite : m.writesComplete) :
    ((s.load m).2.1.save (s.load m).2.2).1 = true ∧
      ((s.load m).2.1.save (s.load m).2.2).2.files s.path_ = some (bytes.take (12 + s.sizeofT)) ∧
      (bytes.length = 12 + s.sizeofT →
        ((s.load m).2.1.save (s.load m).2.2).2.files s.path_ = some bytes) := by
  have h12 : sizeofHeader = 12 := rfl
  obtain ⟨-, hwc, -⟩ := load_medium s m
  rcases load_cases s m with ⟨hf, -⟩ | ⟨-, bytes0, hb0, hlen, hmagic, hversion, hsize, hcrc, hst⟩
  · rw [hload] at hf; exact Bool.noConfusion hf
  · rw [hfile] at hb0
    have e : bytes0 = bytes := (Option.some.inj hb0).symm
    subst e
    have hpl := payloadOf_length hlen
    have hs := save_of_complete (s := (s.load m).2.1) (m := (s.load m).2.2) hopen
      (by rw [hwc]; exact hwrite) (by rw [hst]; exact hpl)
    have hdl := Header.dataSize_lt (bytes0.take sizeofHeader)
    have htake : List.take s.sizeofT (payloadOf s.sizeofT bytes0) = payloadOf s.sizeofT bytes0 :=
      List.take_of_length_le (by omega)
    have hhdr : (s.load m).2.1.header = Header.ofBytes (bytes0.take sizeofHeader) := by
      rw [hst]
      unfold Storage.header
      simp only [htake, hcrc, ← hmagic, ← hversion]
      have hmod : s.sizeofT % 2 ^ 16 = (Header.ofBytes (bytes0.take sizeofHeader)).dataSize := by
        rw [hsize]
        exact Nat.mod_eq_of_lt (by omega)
      rw [hmod]
    have hbytes : (s.load m).2.1.header.toBytes = bytes0.take sizeofHeader := by
      rw [hhdr]
      exact Header.toBytes_ofBytes _ (by rw [List.length_take]; omega)
    have hpath : (s.load m).2.1.path_ = s.path_ := by rw [hst]
    have hdata : (s.load m).2.1.data_ = payloadOf s.sizeofT bytes0 := by rw [hst]
    have hres : ((s.load m).2.1.save (s.load m).2.2).2.files s.path_ =
        some (bytes0.take (12 + s.sizeofT)) := by
      rw [hs]
      show (if s.path_ = (s.load m).2.1.path_ then _ else _) = _
      rw [hpath, if_pos rfl, hbytes, hdata, List.take_add]
      rfl
    refine ⟨by rw [hs], hres, fun hexact => ?_⟩
    rw [hres, List.take_of_length_le (by omega)]

/-- Witness of C19: the example file, and the example file followed by two
extra bytes, which `save()` drops. -/
theorem load_then_save_witness :
    (mediumWith "/config.bin" (cfgFile ++ [1, 2])).files cfg.path_ = some (cfgFile ++ [1, 2]) ∧
      (cfg.load (mediumWith "/config.bin" (cfgFile ++ [1, 2]))).1 = true ∧
      (cfg.load (mediumWith "/config.bin" (cfgFile ++ [1, 2]))).2.2.opensSucceed ∧
      (mediumWith "/config.bin" (cfgFile ++ [1, 2])).writesComplete ∧
      ((cfg.load (mediumWith "/config.bin" (cfgFile ++ [1, 2]))).2.1.save
        (cfg.load (mediumWith "/config.bin" (cfgFile ++ [1, 2]))).2.2).1 = true ∧
      ((cfg.load (mediumWith "/config.bin" (cfgFile ++ [1, 2]))).2.1.save
        (cfg.load (mediumWith "/config.bin" (cfgFile ++ [1, 2]))).2.2).2.files cfg.path_ =
          some ((cfgFile ++ [1, 2]).take (12 + cfg.sizeofT)) ∧
      ((cfg.load (mediumWith "/config.bin" cfgFile)).2.1.save
        (cfg.load (mediumWith "/config.bin" cfgFile)).2.2).2.files cfg.path_ = some cfgFile :=
  ⟨rfl, rfl, rfl, rfl,
    (load_then_save cfg (mediumWith "/config.bin" (cfgFile ++ [1, 2])) (cfgFile ++ [1, 2])
      rfl (by rfl) (by unfold Medium.opensSucceed; rfl) rfl).1,
    (load_then_save cfg (mediumWith "/config.bin" (cfgFile ++ [1, 2])) (cfgFile ++ [1, 2])
      rfl (by rfl) (by unfold Medium.opensSucceed; rfl) rfl).2.1,
    (load_then_save cfg (mediumWith "/config.bin" cfgFile) cfgFile rfl (by rfl) (by unfold Medium.opensSucceed; rfl) rfl).2.2
      rfl⟩

/-! ## Bursts -/

/-- The register after absorbing a byte string is the register stepped 8 times
per byte on the start value xor the little-endian value of the string. -/
theorem crc_foldl_eq (es : List Byte) (c : Nat) :
    es.foldl crcByte c = crcBit^[8 * es.length] (c ^^^ fromLE es) := by
  induction es generalizing c with
  | nil => simp [fromLE]
  | cons e es ih =>
    have he : e.val < 256 := e.isLt
    rw [List.foldl_cons, ih, List.length_cons, Nat.mul_succ, Function.iterate_add_apply]
    congr 1
    simp only [fromLE]
    rw [crcBit_iterate_xor, crcBit_eight_split _ _ he, ← Nat.xor_assoc, ← crcBit_iterate_xor]
    rfl

theorem fromLE_inj (a b : List Byte) (hlen : a.length = b.length)
    (h : fromLE a = fromLE b) : a = b := by
  induction a generalizing b with
  | nil =>
    cases b with
    | nil => rfl
    | cons y ys => simp at hlen
  | cons x xs ih =>
    cases b with
    | nil => simp at hlen
    | cons y ys =>
      have hx : x.val < 256 := x.isLt
      have hy : y.val < 256 := y.isLt
      simp only [fromLE] at h
      simp only [List.length_cons, Nat.add_right_cancel_iff] at hlen
      have h1 : x.val = y.val := by omega
      have h2 : fromLE xs = fromLE ys := by omega
      rw [Fin.ext h1, ih ys hlen h2]

/-- From the same register value, two different byte strings of the same
length, at most 4, lead to different register values. -/
theorem crc_window_inj (c : Nat) (hc : c < 2 ^ 32) (wa wb : List Byte)
    (hlen : wa.length = wb.length) (h4 : wa.length ≤ 4)
    (h : wa.foldl crcByte c = wb.foldl crcByte c) : wa = wb := by
  rw [crc_foldl_eq, crc_foldl_eq, ← hlen] at h
  have bound : ∀ w : List Byte, w.length ≤ 4 → fromLE w < 2 ^ 32 := by
    intro w hw
    have h1 := fromLE_lt w
    have h2 : 256 ^ w.length ≤ 256 ^ 4 := Nat.pow_le_pow_right (by decide) hw
    have e : (256 : Nat) ^ 4 = 2 ^ 32 := by decide
    omega
  have ha := bound wa h4
  have hb := bound wb (by omega)
  have h1 := crcBit_iterate_inj _ (Nat.xor_lt_two_pow hc ha) (Nat.xor_lt_two_pow hc hb) h
  exact fromLE_inj wa wb hlen (Nat.xor_right_injective h1)

theorem crc32_window (pre wa wb suf : List Byte) (hlen : wa.length = wb.length)
    (h4 : wa.length ≤ 4) (h : crc32 (pre ++ wa ++ suf) = crc32 (pre ++ wb ++ suf)) :
    wa = wb := by
  unfold crc32 at h
  have h1 := Nat.xor_right_injective h
  rw [List.foldl_append, List.foldl_append, List.foldl_append, List.foldl_append] at h1
  have hp : pre.foldl crcByte 0xFFFFFFFF < 2 ^ 32 := crc_foldl_lt pre (by decide)
  have h2 := crc_foldl_inj suf (crc_foldl_lt wa hp) (crc_foldl_lt wb hp) h1
  exact crc_window_inj _ hp wa wb hlen h4 h2

/-- Two strings whose differing positions lie in `k .. k+3` agree before `k`
and from `k + 4` on. -/
theorem window_split (a b : List Byte) (k : Nat)
    (hwin : ∀ i, a[i]? ≠ b[i]? → k ≤ i ∧ i < k + 4) :
    a.take k = b.take k ∧ a.drop (k + 4) = b.drop (k + 4) := by
  constructor
  · apply List.ext_getElem?
    intro i
    rw [List.getElem?_take, List.getElem?_take]
    split
    · rename_i hi
      by_contra hne
      have := hwin i hne
      omega
    · rfl
  · apply List.ext_getElem?
    intro i
    rw [List.getElem?_drop, List.getElem?_drop]
    by_contra hne
    have := hwin (k + 4 + i) hne
    omega

theorem window_of_split (a b : List Byte) (k : Nat) (h1 : a.take k = b.take k)
    (h2 : a.drop (k + 4) = b.drop (k + 4)) :
    ∀ i, a[i]? ≠ b[i]? → k ≤ i ∧ i < k + 4 := by
  intro i hne
  by_contra hout
  apply hne
  by_cases hi : i < k
  · have ea : a[i]? = (a.take k)[i]? := (List.getElem?_take_of_lt hi).symm
    have eb : b[i]? = (b.take k)[i]? := (List.getElem?_take_of_lt hi).symm
    rw [ea, eb, h1]
  · have hge : k + 4 ≤ i := by omega
    have e : i = k + 4 + (i - (k + 4)) := by omega
    have ea : a[i]? = (a.drop (k + 4))[i - (k + 4)]? := by
      rw [List.getElem?_drop, ← e]
    have eb : b[i]? = (b.drop (k + 4))[i - (k + 4)]? := by
      rw [List.getElem?_drop, ← e]
    rw [ea, eb, h2]

theorem crc32_burst (a b : List Byte) (k : Nat) (hlen : a.length = b.length) (hne : a ≠ b)
    (hwin : ∀ i, a[i]? ≠ b[i]? → k ≤ i ∧ i < k + 4) : crc32 a ≠ crc32 b := by
  obtain ⟨hpre, hsuf⟩ := window_split a b k hwin
  have da : a = a.take k ++ (a.drop k).take 4 ++ a.drop (k + 4) := by
    rw [← List.take_add, List.take_append_drop]
  have db : b = a.take k ++ (b.drop k).take 4 ++ a.drop (k + 4) := by
    rw [hpre, hsuf, ← List.take_add, List.take_append_drop]
  intro h
  rw [da, db] at h
  have hw := crc32_window _ _ _ _
    (by simp only [List.length_take, List.length_drop, hlen])
    (by rw [List.length_take]; omega) h
  apply hne
  rw [da, db, hw]

/-- A payload of the example sketch altered in bytes 1 to 4 only. -/
theorem cfgFile_burst_window :
    ∀ i, (payloadOf sizeofConfig cfgFile)[i]? ≠
        (payloadOf sizeofConfig (cfgFile.take 13 ++ [9, 9, 9, 9] ++ cfgFile.drop 17))[i]? →
      1 ≤ i ∧ i < 1 + 4 :=
  window_of_split _ _ 1 (by decide) (by decide)

/-- C20 (burst-error detection). For every two byte sequences `a` and `b` of
the same length that differ, and whose differing bytes all lie within the 4
consecutive positions `k` to `k+3`, `crc32 a` and `crc32 b` differ.
Consequently `load()` rejects every file that has the header of a file it
accepts and whose payload region is that file's payload altered only within 4
consecutive bytes, and keeps the in-memory payload. -/
theorem crc32_detects_bursts (a b : List Byte) (k : Nat) (hlen : a.length = b.length)
    (hne : a ≠ b) (hwin : ∀ i, a[i]? ≠ b[i]? → k ≤ i ∧ i < k + 4) :
    crc32 a ≠ crc32 b ∧
    ∀ (s t : Storage) (m m' : Medium) (bytes bytes' : List Byte),
      m.files s.path_ = some bytes → (s.load m).1 = true → t.sizeofT = s.sizeofT →
      m'.files t.path_ = some bytes' → bytes'.take sizeofHeader = bytes.take sizeofHeader →
      payloadOf s.sizeofT bytes = a → payloadOf s.sizeofT bytes' = b →
      (t.load m').1 = false ∧ (t.load m').2.1.data = t.data := by
  have hcrc := crc32_burst a b k hlen hne hwin
  refine ⟨hcrc, ?_⟩
  intro s t m m' bytes bytes' hfile hload hsize hfile' hhdr ha hb
  rcases load_cases t m' with ⟨hf, hst⟩ | ⟨-, bytes1, hb1, -, -, -, -, hcrc1, -⟩
  · exact ⟨hf, by rw [hst]; rfl⟩
  · exfalso
    rcases load_cases s m with ⟨hf, -⟩ | ⟨-, bytes0, hb0, -, -, -, -, hcrc0, -⟩
    · rw [hload] at hf; exact Bool.noConfusion hf
    · rw [hfile] at hb0
      rw [hfile'] at hb1
      have e0 : bytes0 = bytes := (Option.some.inj hb0).symm
      have e1 : bytes1 = bytes' := (Option.some.inj hb1).symm
      subst e0 e1
      rw [hhdr, ← hcrc0, hsize, ha, hb] at hcrc1
      exact hcrc hcrc1.symm

/-- Witness of C20: the payload of the example file with bytes 1 to 4 replaced. -/
theorem crc32_detects_bursts_witness :
    (payloadOf sizeofConfig cfgFile).length =
        (payloadOf sizeofConfig (cfgFile.take 13 ++ [9, 9, 9, 9] ++ cfgFile.drop 17)).length ∧
      payloadOf sizeofConfig cfgFile ≠
        payloadOf sizeofConfig (cfgFile.take 13 ++ [9, 9, 9, 9] ++ cfgFile.drop 17) ∧
      crc32 (payloadOf sizeofConfig cfgFile) ≠
        crc32 (payloadOf sizeofConfig (cfgFile.take 13 ++ [9, 9, 9, 9] ++ cfgFile.drop 17)) ∧
      (cfg.load (mediumWith "/config.bin"
        (cfgFile.take 13 ++ [9, 9, 9, 9] ++ cfgFile.drop 17))).1 = false ∧
      (cfg.load (mediumWith "/config.bin"
        (cfgFile.take 13 ++ [9, 9, 9, 9] ++ cfgFile.drop 17))).2.1.data = cfg.data :=
  ⟨by decide, by decide,
    (crc32_detects_bursts _ _ 1 (by decide) (by decide) cfgFile_burst_window).1,
    (crc32_detects_bursts (payloadOf sizeofConfig cfgFile)
      (payloadOf sizeofConfig (cfgFile.take 13 ++ [9, 9, 9, 9] ++ cfgFile.drop 17)) 1
      (by decide) (by decide) cfgFile_burst_window).2 cfg cfg
      (mediumWith "/config.bin" cfgFile)
      (mediumWith "/config.bin" (cfgFile.take 13 ++ [9, 9, 9, 9] ++ cfgFile.drop 17))
      cfgFile (cfgFile.take 13 ++ [9, 9, 9, 9] ++ cfgFile.drop 17)
      rfl (by rfl) rfl rfl (by decide) rfl rfl⟩

/-! ## The validity flag over histories -/

theorem setDefaults_length (d : List Byte) (h : d.length = sizeofConfig) :
    (setDefaults d).length = sizeofConfig := by
  unfold sizeofConfig at h
  simp [setDefaults, toLE, sizeofConfig, h]

theorem run_append (cs : List Call) (c : Call) (s : Storage) (m : Medium) :
    run (cs ++ [c]) s m =
      ((c.exec (run cs s m).1 (run cs s m).2).2.1, (c.exec (run cs s m).1 (run cs s m).2).2.2) := by
  induction cs generalizing s m with
  | nil => rfl
  | cons d ds ih =>
    show run (ds ++ [c]) (d.exec s m).2.1 (d.exec s m).2.2 = _
    rw [ih]
    rfl

/-- Every call keeps the store sound, whatever the medium does. -/
theorem exec_sound (c : Call) (s : Storage) (m : Medium) (hs : s.Sound) :
    (c.exec s m).2.1.Sound := by
  cases c with
  | save => exact hs
  | load => exact (exec_invariant Call.load s m hs (fun h => Call.noConfusion h)).1
  | loadOrDefault =>
    exact (exec_invariant Call.loadOrDefault s m hs (fun h => Call.noConfusion h)).1
  | resetToDefaults a =>
    exact (exec_invariant (Call.resetToDefaults a) s m hs (fun h => Call.noConfusion h)).1

theorem run_sound (cs : List Call) (s : Storage) (m : Medium) (hs : s.Sound) :
    (run cs s m).1.Sound := by
  induction cs generalizing s m with
  | nil => exact hs
  | cons c cs ih => exact ih _ _ (exec_sound c s m hs)

theorem not_matchesFile_of_big (s : Storage) (bytes : List Byte) (hbig : 65536 ≤ s.sizeofT) :
    ¬ s.matchesFile bytes := by
  rintro ⟨-, -, -, hsize, -⟩
  have := Header.dataSize_lt (bytes.take sizeofHeader)
  omega

theorem new_defaultsOutput_length (n : Nat) (path : String) (version magic : Nat) :
    (Storage.new n path version magic none).defaultsOutput.length = n :=
  List.length_replicate _ _

/-- For a payload of 65536 bytes or more, `resetToDefaults(true)` on a medium
without faults sets the flag although no file can match the payload. -/
theorem big_reset_flag (s : Storage) (m : Medium) (hbig : 65536 ≤ s.sizeofT)
    (hlen : s.defaultsOutput.length = s.sizeofT) (hopen : m.openFaults = [])
    (hcaps : m.writeCaps = []) :
    (s.resetToDefaults m true).1.isValid = true ∧
      ¬ (s.resetToDefaults m true).1.matchesMedium (s.resetToDefaults m true).2 := by
  have hs := save_of_complete (s := ({ s with data_ := s.defaultsOutput } : Storage)) (m := m)
    hopen hcaps hlen
  rw [resetToDefaults_eq]
  simp only [if_true]
  constructor
  · show (({ s with data_ := s.defaultsOutput } : Storage).save m).1 = true
    rw [hs]
  · rintro ⟨bytes, -, hm⟩
    exact absurd hm (not_matchesFile_of_big _ bytes hbig)

/-- C11, counterexample. The store of the example sketch on a medium whose
third write is short: `loadOrDefault()` saves the defaults and sets the flag;
the following `save()` fails after truncating the file, and `isValid()` is
still true although the file is empty, hence not a record of the payload.
Conversely, after a lone successful `save()` the payload matches the stored
file and `isValid()` is false. And for a payload of 65536 bytes, after a
successful `resetToDefaults(true)` on a fault-free medium `isValid()` is true
although the stored file is not a well-formed record of the payload. -/
theorem valid_flag_survives_failed_save :
    ((run [Call.loadOrDefault] cfg flakyMedium).1.save
        (run [Call.loadOrDefault] cfg flakyMedium).2).1 = false ∧
      (run [Call.loadOrDefault, Call.save] cfg flakyMedium).1.isValid = true ∧
      (run [Call.loadOrDefault, Call.save] cfg flakyMedium).2.files cfg.path_ = some [] ∧
      ¬ (run [Call.loadOrDefault, Call.save] cfg flakyMedium).1.matchesMedium
        (run [Call.loadOrDefault, Call.save] cfg flakyMedium).2 ∧
      (run [Call.save] cfg emptyMedium).1.isValid = false ∧
      (run [Call.save] cfg emptyMedium).1.matchesMedium (run [Call.save] cfg emptyMedium).2 ∧
      (bigStore.resetToDefaults emptyMedium true).1.isValid = true ∧
      ¬ (bigStore.resetToDefaults emptyMedium true).1.matchesMedium
        (bigStore.resetToDefaults emptyMedium true).2 := by
  refine ⟨rfl, rfl, rfl, ?_, rfl, ?_, ?_⟩
  · rintro ⟨bytes, hb, hlen, -⟩
    have hfile : (run [Call.loadOrDefault, Call.save] cfg flakyMedium).2.files
        (run [Call.loadOrDefault, Call.save] cfg flakyMedium).1.path_ = some [] := rfl
    rw [hfile] at hb
    have e : bytes = [] := (Option.some.inj hb).symm
    rw [e] at hlen
    have h12 : sizeofHeader = 12 := rfl
    simp only [List.length_nil] at hlen
    omega
  · exact ⟨cfgFile, rfl, by decide, rfl, rfl, rfl, rfl, rfl⟩
  · exact big_reset_flag bigStore emptyMedium (Nat.le_refl _)
      (new_defaultsOutput_length 65536 "/big.bin" 1 defaultMagic) rfl rfl

/-- C11, amended (validity flag). For a store constructed with a magic and a
version in the range of their types, a payload size n of at most 65535 and a
generator that fills a payload of the static size: in every state reached from
construction by any sequence of `load()`, `save()`, `loadOrDefault()` and
`resetToDefaults(autosave)` calls on any medium (failing opens, short reads and
short writes included), unless the most recent call is a `save()` that
returned false, whenever `isValid()` is true the file at the store's path is a
well-formed record whose payload equals the in-memory payload; earlier failed
calls, failed `save()` calls among them, do not matter. The flag is false after
construction, equals the result of `load()` and of `loadOrDefault()` after
those calls, is false after `resetToDefaults(false)` and equals the result of
the save after `resetToDefaults(true)`; `save()` leaves the flag as it was. -/
theorem valid_flag_invariant (n : Nat) (path : String) (version magic : Nat)
    (g : Option (List Byte → List Byte)) (cs : List Call) (c : Call) (m : Medium)
    (hmagic : magic < 2 ^ 32) (hversion : version < 2 ^ 16) (hn : n ≤ 65535)
    (hg : ∀ f, g = some f → ∀ d : List Byte, d.length = n → (f d).length = n)
    (hlast : c = Call.save →
      ((run cs (Storage.new n path version magic g) m).1.save
        (run cs (Storage.new n path version magic g) m).2).1 = true) :
    (Storage.new n path version magic g).isValid = false ∧
    ((run (cs ++ [c]) (Storage.new n path version magic g) m).1.isValid = true →
      (run (cs ++ [c]) (Storage.new n path version magic g) m).1.matchesMedium
        (run (cs ++ [c]) (Storage.new n path version magic g) m).2) ∧
    (∀ (t : Storage) (k : Medium),
      (t.load k).2.1.isValid = (t.load k).1 ∧
      (t.loadOrDefault k).2.1.isValid = (t.loadOrDefault k).1 ∧
      (t.resetToDefaults k false).1.isValid = false ∧
      (t.resetToDefaults k true).1.isValid =
        (({ t with data_ := t.defaultsOutput } : Storage).save k).1 ∧
      (t.callSave k).2.1.isValid = t.isValid) := by
  have hs0 := new_sound n path version magic g hmagic hversion hn hg
  have hs := run_sound cs _ m hs0
  refine ⟨rfl, ?_, fun t k => ?_⟩
  · rw [run_append]
    exact (exec_invariant c _ _ hs hlast).2
  · refine ⟨load_flag t k, loadOrDefault_flag t k, ?_, ?_, rfl⟩
    · rw [resetToDefaults_eq]; rfl
    · rw [resetToDefaults_eq]; rfl

/-- Witness of C11 amended: the example store on the medium whose third write
is short. `loadOrDefault()` saves the defaults, the following `save()` fails
and leaves an empty file, and a second `loadOrDefault()` restores a matching
file with the flag set. On a fault-free medium, `loadOrDefault()` followed by a
successful `save()` ends with the flag set and a matching file. -/
theorem valid_flag_invariant_witness :
    ((run [Call.loadOrDefault] cfg flakyMedium).1.save
        (run [Call.loadOrDefault] cfg flakyMedium).2).1 = false ∧
      (run ([Call.loadOrDefault, Call.save] ++ [Call.loadOrDefault]) cfg flakyMedium).1.isValid
        = true ∧
      (run ([Call.loadOrDefault, Call.save] ++ [Call.loadOrDefault]) cfg
        flakyMedium).1.matchesMedium
        (run ([Call.loadOrDefault, Call.save] ++ [Call.loadOrDefault]) cfg flakyMedium).2 ∧
      ((run [Call.loadOrDefault] cfg emptyMedium).1.save
        (run [Call.loadOrDefault] cfg emptyMedium).2).1 = true ∧
      (run ([Call.loadOrDefault] ++ [Call.save]) cfg emptyMedium).1.isValid = true ∧
      (run ([Call.loadOrDefault] ++ [Call.save]) cfg emptyMedium).1.matchesMedium
        (run ([Call.loadOrDefault] ++ [Call.save]) cfg emptyMedium).2 :=
  ⟨rfl, rfl,
    (valid_flag_invariant sizeofConfig "/config.bin" 1 0x31474643 (some setDefaults)
      [Call.loadOrDefault, Call.save] Call.loadOrDefault flakyMedium
      (by decide) (by decide) (by decide)
      (fun f hf d hd => by
        have e : f = setDefaults := (Option.some.inj hf).symm
        rw [e]
        exact setDefaults_length d hd)
      (fun h => Call.noConfusion h)).2.1 rfl,
    rfl, rfl,
    (valid_flag_invariant sizeofConfig "/config.bin" 1 0x31474643 (some setDefaults)
      [Call.loadOrDefault] Call.save emptyMedium
      (by decide) (by decide) (by decide)
      (fun f hf d hd => by
        have e : f = setDefaults := (Option.some.inj hf).symm
        rw [e]
        exact setDefaults_length d hd)
      (fun _ => rfl)).2.1 rfl⟩

end StructFS
